import Mathlib

set_option maxHeartbeats 1000000

/-!
Verification of the configuration-orchestration core of this repository
(a laravel-mix fork).  Part A embeds the `Mix` context class
(src/unnamed/part_000 = Mix.js): the process-wide current-context stack,
`boot`, `whileCurrent`, `withChild`, `buildConfigs`, `build`, `init`,
`dispatchToChildren`, and the `Group` component (src/components/Group.js).
Part B embeds `ComponentRegistrar` (src/components/ComponentRegistrar.js):
component installation, verb callables, and the lifecycle listeners.
-/

namespace LaravelMix

/-- A `Mix` build context (class `Mix`, src/unnamed/part_000).  We keep the
fields the verified claims depend on: `name` (options.name), the `booted`
and `initialized` flags, and the owned `children` list.  External
collaborators held by the constructor (dispatcher, manifest, paths,
webpackConfig, ...) are out of scope per the spec. -/
inductive MixCtx : Type where
  | mk (name : String) (booted : Bool) (initialized : Bool) (children : List MixCtx)

/-- Accessor for `options.name`. -/
def MixCtx.name : MixCtx → String
  | .mk n _ _ _ => n

/-- Accessor for `this.booted`. -/
def MixCtx.booted : MixCtx → Bool
  | .mk _ b _ _ => b

/-- Accessor for `this.initialized`. -/
def MixCtx.initialized : MixCtx → Bool
  | .mk _ _ i _ => i

/-- Accessor for `this.children`. -/
def MixCtx.children : MixCtx → List MixCtx
  | .mk _ _ _ cs => cs

/-- Constructor call `new Mix({ name })`: `booted` and `initialized` start
false and the children list starts empty. -/
def newMix (name : String) : MixCtx :=
  .mk name false false []

/-- Effect of `this.booted = true`. -/
def MixCtx.setBooted : MixCtx → MixCtx
  | .mk n _ i cs => .mk n true i cs

/-- Effect of `this.initialized = true`. -/
def MixCtx.setInitialized : MixCtx → MixCtx
  | .mk n b _ cs => .mk n b true cs

/-- Effect of `this.children.push(child)`. -/
def MixCtx.addChild : MixCtx → MixCtx → MixCtx
  | .mk n b i cs, c => .mk n b i (cs ++ [c])

/-- The process-wide current-context stack `Mix.current`.  The JS array
holds `Mix` object references; contexts are identified by their name in
the model.  `push` appends at the end, `pop` removes the last element. -/
abbrev CurrentStack := List String

/-- Method `pushCurrent()`: `Mix.current.push(this.makeCurrent())`.  The
`makeCurrent` global-variable effects are external to the stack model. -/
def pushCurrent (c : MixCtx) (st : CurrentStack) : CurrentStack :=
  st ++ [c.name]

/-- Method `popCurrent()`: `Mix.current.pop()`, then the new top context
(if any) is made current again — a global-variable effect outside the
stack itself. -/
def popCurrent (st : CurrentStack) : CurrentStack :=
  st.dropLast

/-- Method `boot()`: a no-op when already booted; otherwise sets `booted`,
loads `.env` for the primary instance and applies the Laravel public-path
default (both external side effects), registers the hot-reload `init`
listener (external), and calls `pushCurrent()`. -/
def boot (c : MixCtx) (st : CurrentStack) : MixCtx × CurrentStack :=
  if c.booted then (c, st)
  else (c.setBooted, pushCurrent c st)

/-- How a callback hands control back to `whileCurrent`: a synchronous
return of a non-Promise value, a synchronous return of a Promise that
later resolves or rejects, or a synchronous throw.  Values and errors are
represented by naturals. -/
inductive CbEnd : Type where
  | ret (v : Nat)
  | retPromise (resolved : Bool) (v : Nat)
  | throwSync (v : Nat)

/-- A callback passed to `whileCurrent`/`withChild`: it receives the
context, may itself manipulate the current-context stack, and finishes in
one of the `CbEnd` ways. -/
abbrev Callback := MixCtx → CurrentStack → CurrentStack × CbEnd

/-- What a `whileCurrent` call hands back to its caller once everything
has settled: the JS `undefined` (the function body falls through with no
return statement), the returned Promise together with its eventual
outcome, or a synchronously propagated throw. -/
inductive WCRet : Type where
  | undef
  | promise (resolved : Bool) (v : Nat)
  | thrown (v : Nat)
deriving DecidableEq

/-- Method `whileCurrent(callback)`: `pushCurrent()`; run the callback in
a try block; when the result is a Promise, return `result.finally(() =>
this.popCurrent())` (the pop runs after the promise settles, whether it
resolves or rejects, and the outcome is propagated); when the callback
throws synchronously, `popCurrent()` runs in the catch block and the
error is rethrown; otherwise fall through to the final `popCurrent()` and
return `undefined`.  The returned stack is the stack once the call (and a
returned promise, if any) has fully settled. -/
def whileCurrent (c : MixCtx) (cb : Callback) (st : CurrentStack) :
    CurrentStack × WCRet :=
  let st1 := pushCurrent c st
  match cb c st1 with
  | (st2, .ret _) => (popCurrent st2, .undef)
  | (st2, .retPromise ok v) => (popCurrent st2, .promise ok v)
  | (st2, .throwSync v) => (popCurrent st2, .thrown v)

/-- Method `withChild(name, callback)`: create `new Mix({ name })`, boot
it (which pushes it onto the current stack), push it onto this context's
`children`, and run `callback` through the child's `whileCurrent`. -/
def withChild (parent : MixCtx) (name : String) (cb : Callback)
    (st : CurrentStack) : MixCtx × CurrentStack × WCRet :=
  let booted := boot (newMix name) st
  let parent2 := parent.addChild booted.1
  let r := whileCurrent booted.1 cb booted.2
  (parent2, r.1, r.2)

mutual

/-- Generator method `buildConfigs()`: yield this context's own
configuration build (identified here by the context name) only when it
has no children, then recursively yield from every child. -/
def buildConfigs : MixCtx → List String
  | .mk n _ _ cs => (if cs.isEmpty then [n] else []) ++ buildConfigsList cs

/-- The `for (const child of this.children) yield* child.buildConfigs()`
loop of `buildConfigs`. -/
def buildConfigsList : List MixCtx → List String
  | [] => []
  | c :: cs => buildConfigs c ++ buildConfigsList cs

end

mutual

/-- All descendants of a context, the context itself included. -/
def allNodes : MixCtx → List MixCtx
  | .mk n b i cs => .mk n b i cs :: allNodesList cs

/-- All descendants of every context in a list. -/
def allNodesList : List MixCtx → List MixCtx
  | [] => []
  | c :: cs => allNodes c ++ allNodesList cs

end

/-- Modelled from the spec: the names of the leaf descendants of a
context, "one configuration per leaf-bearing descendant (a descendant
with no children) and zero for any context that has children".  Used as
the specification-side description that `buildConfigs` is compared
against. -/
def leafDescendants (c : MixCtx) : List String :=
  ((allNodes c).filter (fun d => d.children.isEmpty)).map MixCtx.name

/-- The warning `build()` prints when the context was never booted. -/
def warnMessage : String :=
  "Mix was not set up correctly. Please ensure you import or require laravel-mix in your mix config."

/-- Method `build()`: when the context is not booted, print a warning and
call `boot()` first; then hand back all the configuration builds of
`buildConfigs()`.  The result is ((context, stack), warnings printed,
configuration builds yielded). -/
def build (c : MixCtx) (st : CurrentStack) :
    (MixCtx × CurrentStack) × List String × List String :=
  if c.booted then ((c, st), [], buildConfigs c)
  else
    let b := boot c st
    ((b.1, b.2), [warnMessage], buildConfigs b.1)

/-- Method `dispatch(event)`: fires the event on this context's own
dispatcher (inside `whileCurrent`, whose stack discipline is verified
separately).  The observation recorded is which context's dispatcher
fired which event. -/
def dispatch (c : MixCtx) (e : String) : List (String × String) :=
  [(c.name, e)]

/-- Method `dispatchToChildren(event)`: `this.children.map(child =>
child.dispatch(event, data))`, joined with `Promise.all`. -/
def dispatchToChildren (c : MixCtx) (e : String) : List (String × String) :=
  (c.children.map (fun child => dispatch child e)).flatten

/-- Method `init()`: a no-op when already initialized; otherwise set the
`initialized` flag, fire `init` on this context's dispatcher, then
dispatch `init` to the children.  Returns the updated context and the
(context, event) firings that occurred. -/
def init (c : MixCtx) : MixCtx × List (String × String) :=
  if c.initialized then (c, [])
  else (c.setInitialized, dispatch c "init" ++ dispatchToChildren c "init")

/-- Method `Group.register(name, callback)` (src/components/Group.js):
throw synchronously when no callback is given; compute `shouldBuild` from
the `MIX_GROUP` environment variable (`none` models unset/empty); return
early when this group is filtered out; otherwise run the callback in a
fresh child context via `withChild`.  The result is (thrown error if any,
parent context, stack). -/
def groupRegister (parent : MixCtx) (st : CurrentStack) (name : String)
    (callback : Option Callback) (mixGroupEnv : Option String) :
    Option String × MixCtx × CurrentStack :=
  match callback with
  | none => (some "A callback must be passed to mix.group()", parent, st)
  | some cb =>
    let shouldBuild := mixGroupEnv == some name || mixGroupEnv.isNone
    if shouldBuild then
      let r := withChild parent name cb st
      (none, r.1, r.2.1)
    else (none, parent, st)

/-!
Part B: the component registry (src/components/ComponentRegistrar.js,
first — current — version).  Components are duck-typed capability sets;
the model records which optional hooks a component carries, and the run
produces a trace of hook invocations.
-/

/-- A component as `ComponentRegistrar.install` sees it: a capability-set
record.  `nameHook` models the optional `name()` method (`[].concat`
turns its result into a list of verb names); `ctorName` is
`component.constructor.name`, used when `name` is absent; the `has…`
flags record which optional hooks (`register`, `dependencies`, `boot`,
`babelConfig`, `webpackEntry`, `webpackRules`, `webpackPlugins`,
`webpackConfig`) the component carries; `mixKeys` models the keys of the
optional `mix()` API-extension map (empty list when `mix` is absent). -/
structure Component where
  nameHook : Option (List String)
  ctorName : String
  passive : Bool
  hasRegister : Bool
  hasDependencies : Bool
  requiresReload : Bool
  hasBoot : Bool
  hasBabelConfig : Bool
  hasWebpackEntry : Bool
  hasWebpackRules : Bool
  hasWebpackPlugins : Bool
  hasWebpackConfig : Bool
  mixKeys : List String
deriving DecidableEq, Inhabited

/-- The regex replace `name.replace(/^([A-Z])/, l => l.toLowerCase())`:
lower-case the first character when it is an upper-case letter. -/
def lowerFirst (s : String) : String :=
  match s.data with
  | [] => s
  | ch :: rest => if ch.isUpper then String.mk (Char.toLower ch :: rest) else s

/-- The verb names a component registers under: the result of its
`name()` method when it is a function, else the lower-cased constructor
name. -/
def namesOf (c : Component) : List String :=
  match c.nameHook with
  | some ns => ns
  | none => [lowerFirst c.ctorName]

/-- One recorded invocation of a component hook during a run.
Components are identified by their install index `cid`; verb arguments
are represented by naturals.  `verbInvoked` marks that the verb callable
published under `name` was called. -/
inductive HookCall : Type where
  | verbInvoked (cid : Nat) (name : String) (args : List Nat)
  | register (cid : Nat) (args : List Nat)
  | boot (cid : Nat)
  | babelConfig (cid : Nat)
  | dependencies (cid : Nat)
  | webpackEntry (cid : Nat)
  | webpackRules (cid : Nat)
  | webpackPlugins (cid : Nat)
  | webpackConfig (cid : Nat)
deriving DecidableEq

/-- The dispatcher listeners that `ComponentRegistrar.install` creates:
the permanent `internal:gather-dependencies` and `init` listeners, and
the four second-order listeners the `init` listener subscribes for a
component (`loading-entry`, `loading-rules`, `loading-plugins`,
`configReady`). -/
inductive Listener : Type where
  | gatherDeps (cid : Nat)
  | onInit (cid : Nat)
  | entryFwd (cid : Nat)
  | rulesFwd (cid : Nat)
  | pluginsFwd (cid : Nat)
  | configFwd (cid : Nat)
deriving DecidableEq

/-- An entry of the registrar's `this.components` map: either the verb
closure created in `registerComponent` for a component, or an opaque
user function merged in from the component's `mix()` extension map. -/
inductive VerbTarget : Type where
  | verbClosure (cid : Nat)
  | mixExt (cid : Nat) (key : String)
deriving DecidableEq

/-- The state of one context's registrar and dispatcher: the installed
components (index = `cid`), each component's `activated` flag and
`caller` name, the dispatcher's ordered listener registrations, the
`this.components` verb map (later assignments override earlier ones),
the build-record ledger, the trace of hook invocations, and the
dependency queue of `(cid, requiresReload)` entries.
`records` is modelled from the spec: `Components.record`
(src/components/Components.js is not among the sources) records the
component against the verb name in a build-record ledger. -/
structure RegState where
  comps : List Component
  activated : Nat → Bool
  caller : Nat → Option String
  listeners : List (String × Listener)
  verbs : List (String × VerbTarget)
  records : List (String × Nat)
  trace : List HookCall
  depQueue : List (Nat × Bool)

/-- The state of a context with a fresh registrar and dispatcher. -/
def initialState : RegState :=
  ⟨[], fun _ => false, fun _ => none, [], [], [], [], []⟩

/-- Lookup in the `this.components` object: the last assignment to a
name wins, so later entries of the list override earlier ones. -/
def lookupVerb (vs : List (String × VerbTarget)) (n : String) : Option VerbTarget :=
  match vs with
  | [] => none
  | (m, t) :: rest =>
    match lookupVerb rest n with
    | some r => some r
    | none => if m = n then some t else none

/-- The installed component at index `cid`; a hook-free default when the
index is out of range (such a `cid` is never installed). -/
def getComp (st : RegState) (cid : Nat) : Component :=
  st.comps.getD cid default

/-- Body of the verb callable `registerComponent` publishes: record the
component against the verb name in the ledger, set `component.caller`,
call the optional `register` hook with the given arguments, and set
`component.activated = true`. -/
def invokeVerbClosure (st : RegState) (cid : Nat) (name : String)
    (args : List Nat) : RegState :=
  { st with
    records := st.records ++ [(name, cid)]
    caller := fun j => if j = cid then some name else st.caller j
    trace := st.trace ++ [HookCall.verbInvoked cid name args] ++
      (if (getComp st cid).hasRegister then [HookCall.register cid args] else [])
    activated := fun j => if j = cid then true else st.activated j }

/-- Calling `this.components[name](...args)`: dispatch through the verb
map.  A `mix()` extension entry is an opaque user function (no effect on
the registrar state in the model); a missing name is never exercised. -/
def runVerb (st : RegState) (name : String) (args : List Nat) : RegState :=
  match lookupVerb st.verbs name with
  | some (VerbTarget.verbClosure cid) => invokeVerbClosure st cid name args
  | some (VerbTarget.mixExt _ _) => st
  | none => st

/-- One iteration of the `names.forEach(name => register(name))` loop of
`registerComponent`: publish the verb closure under `name`, invoke it
immediately (with no arguments) when the component is passive, then merge
the component's `mix()` extension map into the verb map. -/
def registerOneName (cid : Nat) (c : Component) (st : RegState)
    (name : String) : RegState :=
  let st1 := { st with verbs := st.verbs ++ [(name, VerbTarget.verbClosure cid)] }
  let st2 := if c.passive then runVerb st1 name [] else st1
  if c.mixKeys.isEmpty then st2
  else { st2 with
    verbs := st2.verbs ++ c.mixKeys.map (fun k => (k, VerbTarget.mixExt cid k)) }

/-- Method `registerComponent(component)`: derive the verb names and run
the `register` closure for each. -/
def registerComponent (cid : Nat) (c : Component) (st : RegState) : RegState :=
  (namesOf c).foldl (registerOneName cid c) st

/-- Method `install(Component)`: instantiate the component (its instance
state starts with `activated` false and no `caller`), call
`registerComponent`, then subscribe the permanent
`internal:gather-dependencies` and `init` listeners on its behalf. -/
def installComp (st : RegState) (c : Component) : RegState :=
  let cid := st.comps.length
  let st1 := { st with comps := st.comps ++ [c] }
  let st2 := registerComponent cid c st1
  { st2 with
    listeners := st2.listeners ++
      [("internal:gather-dependencies", Listener.gatherDeps cid),
       ("init", Listener.onInit cid)] }

/-- Run one dispatcher listener.  `gatherDeps` and `onInit` start with
the `if (!component.activated && !component.passive) return;` guard.
`onInit` then runs the optional `boot` and `babelConfig` hooks and
subscribes the four second-order contribution listeners.  The four
forwarders call the correspondingly named contribution hook when the
component carries it (`component.webpackEntry && component.webpackEntry(entry)`
and so on); they have no activation guard of their own. -/
def runListener (st : RegState) (l : Listener) : RegState :=
  match l with
  | .gatherDeps cid =>
    let c := getComp st cid
    if !st.activated cid && !c.passive then st
    else if !c.hasDependencies then st
    else { st with
      trace := st.trace ++ [HookCall.dependencies cid]
      depQueue := st.depQueue ++ [(cid, c.requiresReload)] }
  | .onInit cid =>
    let c := getComp st cid
    if !st.activated cid && !c.passive then st
    else
      let st1 :=
        if c.hasBoot then { st with trace := st.trace ++ [HookCall.boot cid] }
        else st
      let st2 :=
        if c.hasBabelConfig then
          { st1 with trace := st1.trace ++ [HookCall.babelConfig cid] }
        else st1
      { st2 with
        listeners := st2.listeners ++
          [("loading-entry", Listener.entryFwd cid),
           ("loading-rules", Listener.rulesFwd cid),
           ("loading-plugins", Listener.pluginsFwd cid),
           ("configReady", Listener.configFwd cid)] }
  | .entryFwd cid =>
    if (getComp st cid).hasWebpackEntry then
      { st with trace := st.trace ++ [HookCall.webpackEntry cid] }
    else st
  | .rulesFwd cid =>
    if (getComp st cid).hasWebpackRules then
      { st with trace := st.trace ++ [HookCall.webpackRules cid] }
    else st
  | .pluginsFwd cid =>
    if (getComp st cid).hasWebpackPlugins then
      { st with trace := st.trace ++ [HookCall.webpackPlugins cid] }
    else st
  | .configFwd cid =>
    if (getComp st cid).hasWebpackConfig then
      { st with trace := st.trace ++ [HookCall.webpackConfig cid] }
    else st

/-- Modelled from the spec: the event dispatcher (src/Dispatcher.js is
not among the sources).  Per spec section 4.1, `listen` appends a handler
for the event name and `fire` invokes that event's handlers sequentially
in registration order; handlers registered while an event is firing are
appended to the state but are not part of the firing's handler list. -/
def fireEvent (st : RegState) (e : String) : RegState :=
  (((st.listeners.filter (fun p => p.1 == e)).map Prod.snd)).foldl runListener st

/-- The operations a user or the pipeline can perform against one
context's registrar: install a component, invoke a published verb
callable by name, or fire a lifecycle event. -/
inductive Op : Type where
  | install (c : Component)
  | invoke (name : String) (args : List Nat)
  | fire (e : String)

/-- Run one operation. -/
def step (st : RegState) (op : Op) : RegState :=
  match op with
  | .install c => installComp st c
  | .invoke n args => runVerb st n args
  | .fire e => fireEvent st e

/-- Run a sequence of operations from a fresh context state. -/
def run (ops : List Op) : RegState :=
  ops.foldl step initialState

/-- Does a hook call belong to component `cid`?  (The `verbInvoked`
marker is the invocation of the published callable itself, not of one of
the component's own hooks.) -/
def isCompHook (cid : Nat) : HookCall → Bool
  | .verbInvoked _ _ _ => false
  | .register j _ => j == cid
  | .boot j => j == cid
  | .babelConfig j => j == cid
  | .dependencies j => j == cid
  | .webpackEntry j => j == cid
  | .webpackRules j => j == cid
  | .webpackPlugins j => j == cid
  | .webpackConfig j => j == cid

/-- Is this a record that component `cid`'s verb callable was invoked? -/
def isVerbInvokedOf (cid : Nat) : HookCall → Bool
  | .verbInvoked j _ _ => j == cid
  | _ => false

/-- Is this a contribution-hook call (`webpackEntry`, `webpackRules`,
`webpackPlugins`, `webpackConfig`) of component `cid`? -/
def isContrib (cid : Nat) : HookCall → Bool
  | .webpackEntry j => j == cid
  | .webpackRules j => j == cid
  | .webpackPlugins j => j == cid
  | .webpackConfig j => j == cid
  | _ => false

/-- The component index a hook call belongs to. -/
def hookCid : HookCall → Nat
  | .verbInvoked j _ _ => j
  | .register j _ => j
  | .boot j => j
  | .babelConfig j => j
  | .dependencies j => j
  | .webpackEntry j => j
  | .webpackRules j => j
  | .webpackPlugins j => j
  | .webpackConfig j => j

/-- Is this listener one of the four second-order contribution
forwarders of component `cid`? -/
def isFwd (cid : Nat) : Listener → Bool
  | .entryFwd j => j == cid
  | .rulesFwd j => j == cid
  | .pluginsFwd j => j == cid
  | .configFwd j => j == cid
  | _ => false

/-- The component index a listener was subscribed for. -/
def listenerCid : Listener → Nat
  | .gatherDeps j => j
  | .onInit j => j
  | .entryFwd j => j
  | .rulesFwd j => j
  | .pluginsFwd j => j
  | .configFwd j => j

/-- The component index a verb-map entry points at. -/
def targetCid : VerbTarget → Nat
  | .verbClosure j => j
  | .mixExt j _ => j

/-- The install index used by `installComp`. -/
def newCid (st : RegState) : Nat := st.comps.length

/-- Is the operation a user verb invocation? -/
def isInvokeOp : Op → Bool
  | .invoke _ _ => true
  | _ => false

/-- How many times component `cid`'s verb callable published under
`name` was invoked, according to the trace. -/
def countVI (cid : Nat) (name : String) (t : List HookCall) : Nat :=
  (t.filter (fun h =>
    match h with
    | HookCall.verbInvoked j m _ => j == cid && m == name
    | _ => false)).length

/-- A component that was never activated and is not passive is "clean":
its `activated` flag is off, no second-order forwarder was ever
subscribed for it, and none of its hooks was ever invoked. -/
def cleanFor (cid : Nat) (st : RegState) : Prop :=
  st.activated cid = false ∧
  (∀ p ∈ st.listeners, isFwd cid p.2 = false) ∧
  (∀ h ∈ st.trace, isCompHook cid h = false)

/-- Every prefix of the trace that contains a contribution-hook call of
component `cid` also contains its `boot` call: the contribution hooks
never run before `boot` has run. -/
def bootBefore (cid : Nat) (t : List HookCall) : Prop :=
  ∀ n, (∃ x ∈ t.take n, isContrib cid x = true) →
    HookCall.boot cid ∈ t.take n

/-- Invariant behind claim C7, for runs without explicit verb
invocations: the verb callable published under each name was invoked
exactly once per occurrence of the name when the component is passive
(and never otherwise), always with no arguments, and a passive installed
component is activated. -/
def C7Inv (cid : Nat) (name : String) (st : RegState) : Prop :=
  countVI cid name st.trace =
    (if (getComp st cid).passive = true
     then (namesOf (getComp st cid)).count name else 0) ∧
  (∀ m a, HookCall.verbInvoked cid m a ∈ st.trace → a = []) ∧
  (cid < st.comps.length → (getComp st cid).passive = true →
    namesOf (getComp st cid) ≠ [] → st.activated cid = true)

/-- Invariant behind claim C3: a second-order forwarder for the
component is only ever registered once its `boot` hook has been traced,
and every prefix of the trace containing one of its contribution-hook
calls already contains its `boot` call. -/
def C3Inv (cid : Nat) (st : RegState) : Prop :=
  (∀ p ∈ st.listeners, isFwd cid p.2 = true → HookCall.boot cid ∈ st.trace) ∧
  bootBefore cid st.trace

/-- Structural well-formedness of a registrar state: every listener and
every verb-map entry refers to an installed component. -/
def wfState (st : RegState) : Prop :=
  (∀ p ∈ st.listeners, listenerCid p.2 < st.comps.length) ∧
  (∀ p ∈ st.verbs, targetCid p.2 < st.comps.length)

/-- A three-level context tree: root, child, grandchild. -/
def deepTree : MixCtx :=
  .mk "root" true false [.mk "child" true false [.mk "grandchild" true false []]]

/-- A sample non-passive component shaped like the `Vue` component:
verbs derived from the constructor name, with `register`,
`dependencies`, `boot` and several webpack hooks. -/
def vueComp : Component :=
  { nameHook := none, ctorName := "Vue", passive := false, hasRegister := true,
    hasDependencies := true, requiresReload := false, hasBoot := true,
    hasBabelConfig := false, hasWebpackEntry := true, hasWebpackRules := true,
    hasWebpackPlugins := false, hasWebpackConfig := true, mixKeys := [] }

/-- A sample passive component shaped like the `Notifications`
component. -/
def notifComp : Component :=
  { nameHook := none, ctorName := "Notifications", passive := true,
    hasRegister := false, hasDependencies := true, requiresReload := false,
    hasBoot := true, hasBabelConfig := false, hasWebpackEntry := false,
    hasWebpackRules := false, hasWebpackPlugins := true,
    hasWebpackConfig := false, mixKeys := [] }

/-!
Theorems about Part A.
-/

/-- Setting the booted flag never changes which configurations
`buildConfigs` yields. -/
theorem buildConfigs_setBooted (c : MixCtx) :
    buildConfigs c.setBooted = buildConfigs c := by
  cases c
  rfl

/-- The booted flag is set after `setBooted`. -/
theorem setBooted_booted (c : MixCtx) : c.setBooted.booted = true := by
  cases c
  rfl

/-- Auxiliary: `whileCurrent` leaves the stack depth unchanged on every
exit path, provided the callback's own stack effect preserves depth. -/
theorem whileCurrent_length (c : MixCtx) (cb : Callback) (st : CurrentStack)
    (hcb : ∀ c2 s2, ((cb c2 s2).1).length = s2.length) :
    ((whileCurrent c cb st).1).length = st.length := by
  unfold whileCurrent
  rcases h : cb c (pushCurrent c st) with ⟨st2, e⟩
  have hlen : st2.length = st.length + 1 := by
    have h2 := hcb c (pushCurrent c st)
    rw [h] at h2
    simpa [pushCurrent] using h2
  cases e <;> simp [h, popCurrent, hlen]

mutual

/-- Auxiliary: `buildConfigs` yields exactly the leaf descendants. -/
theorem buildConfigs_eq_leaves (c : MixCtx) :
    buildConfigs c = leafDescendants c := by
  match c with
  | .mk n b i [] =>
    simp [buildConfigs, buildConfigsList, leafDescendants, allNodes,
      allNodesList, List.filter, MixCtx.children, MixCtx.name]
  | .mk n b i (c0 :: cs) =>
    have h := buildConfigsList_eq_leaves (c0 :: cs)
    simp [buildConfigs, leafDescendants, allNodes, List.filter_cons,
      MixCtx.children] at h ⊢
    exact h

/-- Auxiliary: the list version of `buildConfigs_eq_leaves`. -/
theorem buildConfigsList_eq_leaves (cs : List MixCtx) :
    buildConfigsList cs =
      ((allNodesList cs).filter (fun d => d.children.isEmpty)).map MixCtx.name := by
  match cs with
  | [] => rfl
  | c :: rest =>
    have h1 := buildConfigs_eq_leaves c
    have h2 := buildConfigsList_eq_leaves rest
    simp [buildConfigsList, allNodesList, List.filter_append, leafDescendants] at h1 h2 ⊢
    rw [h1, h2]

end

/-- C4: for every context, `buildConfigs()` yields exactly one
configuration-build operation per leaf descendant (a descendant with no
children) and none for a context that has children; in particular a
context with two childless children yields exactly the two child
operations and none for itself. -/
theorem buildConfigs_one_per_leaf :
    (∀ c, buildConfigs c = leafDescendants c) ∧
    buildConfigs (MixCtx.mk "parent" true false
        [MixCtx.mk "childA" true false [], MixCtx.mk "childB" true false []]) =
      ["childA", "childB"] :=
  ⟨buildConfigs_eq_leaves, by decide⟩

/-- C1 as stated is refuted: `withChild` does not leave the
current-context stack at its prior depth — with a synchronous callback
and an initially empty stack, the depth after the call is 1, not 0,
because booting the new child pushed it onto the stack. -/
theorem withChild_same_depth_counterexample :
    ¬ (((withChild (newMix "Mix") "child" (fun _ s => (s, CbEnd.ret 0)) []).2.1).length
        = ([] : CurrentStack).length) := by
  decide

/-- C1 (amended): for every depth-preserving callback, a `withChild`
call leaves the current-context stack exactly one deeper than before, on
every exit path (normal synchronous return, resolution or rejection of a
returned promise, synchronous throw): the `whileCurrent` wrapper pops its
own push on every exit path, while booting the new child pushes it
permanently. -/
theorem withChild_depth_plus_one (parent : MixCtx) (name : String)
    (cb : Callback) (st : CurrentStack)
    (hcb : ∀ c2 s2, ((cb c2 s2).1).length = s2.length) :
    (∀ c, ((whileCurrent c cb st).1).length = st.length) ∧
    ((withChild parent name cb st).2.1).length = st.length + 1 := by
  constructor
  · intro c
    exact whileCurrent_length c cb st hcb
  · unfold withChild
    simp only [boot, newMix, MixCtx.booted, Bool.false_eq_true, if_false]
    rw [whileCurrent_length _ cb _ hcb]
    simp [pushCurrent]

/-- Witness for `withChild_depth_plus_one` at a concrete input. -/
theorem withChild_depth_plus_one_inst :
    ((withChild (newMix "Mix") "child" (fun _ s => (s, CbEnd.ret 0)) []).2.1).length
      = ([] : CurrentStack).length + 1 :=
  (withChild_depth_plus_one (newMix "Mix") "child"
    (fun _ s => (s, CbEnd.ret 0)) [] (fun _ _ => rfl)).2

/-- C10: when the callback hands back a non-Promise value,
`whileCurrent` falls through and returns `undefined`, discarding the
value; only a returned Promise is propagated to the caller (with its
eventual outcome); hence `withChild` with a synchronous callback returns
`undefined` as well. -/
theorem whileCurrent_discards_sync_result (c : MixCtx) (cb : Callback)
    (st : CurrentStack) (parent : MixCtx) (name : String) :
    (∀ v, (cb c (pushCurrent c st)).2 = CbEnd.ret v →
      (whileCurrent c cb st).2 = WCRet.undef) ∧
    (∀ ok v, (cb c (pushCurrent c st)).2 = CbEnd.retPromise ok v →
      (whileCurrent c cb st).2 = WCRet.promise ok v) ∧
    ((∀ c2 s2, ∃ v, (cb c2 s2).2 = CbEnd.ret v) →
      (withChild parent name cb st).2.2 = WCRet.undef) := by
  refine ⟨?_, ?_, ?_⟩
  · intro v hv
    unfold whileCurrent
    rcases h : cb c (pushCurrent c st) with ⟨st2, e⟩
    rw [h] at hv
    simp at hv
    subst hv
    simp [h]
  · intro ok v hv
    unfold whileCurrent
    rcases h : cb c (pushCurrent c st) with ⟨st2, e⟩
    rw [h] at hv
    simp at hv
    subst hv
    simp [h]
  · intro hsync
    unfold withChild whileCurrent
    rcases hsync ((boot (newMix name) st).1)
        (pushCurrent (boot (newMix name) st).1 (boot (newMix name) st).2)
      with ⟨v, hv⟩
    rcases h : cb ((boot (newMix name) st).1)
        (pushCurrent (boot (newMix name) st).1 (boot (newMix name) st).2)
      with ⟨st2, e⟩
    rw [h] at hv
    simp at hv
    subst hv
    simp [h]

/-- Witness for `whileCurrent_discards_sync_result` at a concrete
input. -/
theorem whileCurrent_discards_sync_result_inst :
    (whileCurrent (newMix "a") (fun _ s => (s, CbEnd.ret 42)) []).2 = WCRet.undef :=
  (whileCurrent_discards_sync_result (newMix "a")
    (fun _ s => (s, CbEnd.ret 42)) [] (newMix "Mix") "c").1 42 rfl

/-- Auxiliary: `dispatchToChildren` fires the event once on each direct
child's dispatcher, in order. -/
theorem dispatchToChildren_eq (c : MixCtx) (e : String) :
    dispatchToChildren c e = c.children.map (fun ch => (ch.name, e)) := by
  unfold dispatchToChildren dispatch
  induction c.children with
  | nil => rfl
  | cons x xs ih => simp [ih]

/-- C5 (amended): `init()` is a no-op when already initialized;
otherwise it marks the context initialized, fires `init` on the
context's own dispatcher and then once on each direct child's
dispatcher; only the context itself and its direct children receive the
firing (grandchildren and deeper descendants do not). -/
theorem init_fires_direct_children_only (c : MixCtx) :
    (c.initialized = true → init c = (c, [])) ∧
    (c.initialized = false →
      (init c).1 = c.setInitialized ∧
      (init c).2 = (c.name, "init") :: c.children.map (fun ch => (ch.name, "init"))) ∧
    (∀ nm e, (nm, e) ∈ (init c).2 →
      e = "init" ∧ (nm = c.name ∨ nm ∈ c.children.map MixCtx.name)) := by
  refine ⟨?_, ?_, ?_⟩
  · intro h
    simp [init, h]
  · intro h
    simp [init, h, dispatch, dispatchToChildren_eq]
  · intro nm e hmem
    by_cases h : c.initialized = true
    · simp [init, h] at hmem
    · simp only [Bool.not_eq_true] at h
      simp only [init, h, Bool.false_eq_true, if_neg, dispatch,
        dispatchToChildren_eq c "init"] at hmem
      rcases List.mem_cons.mp hmem with h1 | h2
      · rcases Prod.mk.injEq .. ▸ h1 with ⟨hnm, he⟩
        simp at h1
        exact ⟨h1.2, Or.inl h1.1⟩
      · rcases List.mem_map.mp h2 with ⟨ch, hch, hpair⟩
        have hnm : ch.name = nm := congrArg Prod.fst hpair
        have he : e = "init" := (congrArg Prod.snd hpair).symm
        exact ⟨he, Or.inr (hnm ▸ List.mem_map_of_mem MixCtx.name hch)⟩

/-- Witness for `init_fires_direct_children_only` at a concrete
input. -/
theorem init_fires_direct_children_only_inst :
    init (MixCtx.mk "done" true true []) = (MixCtx.mk "done" true true [], []) :=
  (init_fires_direct_children_only (MixCtx.mk "done" true true [])).1 rfl

/-- C5 as stated is refuted: `init()` does not reach every descendant at
every depth — on a root/child/grandchild tree the grandchild's
dispatcher never receives the `init` firing. -/
theorem init_not_recursive_counterexample :
    ¬ (∀ d ∈ allNodes deepTree, (MixCtx.name d, "init") ∈ (init deepTree).2) := by
  decide

/-- C8: `build()` on a context that was never booted does not fail: it
prints the missing-setup warning, boots the context itself, and yields
the same configuration builds it would have yielded had `boot()` been
called first (which in turn would print no warning). -/
theorem build_autoboots (c : MixCtx) (st : CurrentStack)
    (h : c.booted = false) :
    (build c st).2.1 = [warnMessage] ∧
    ((build c st).1.1).booted = true ∧
    (build c st).2.2 = buildConfigs c ∧
    (build c st).1 = ((boot c st).1, (boot c st).2) ∧
    (build (boot c st).1 (boot c st).2).2.1 = [] ∧
    (build c st).2.2 = (build (boot c st).1 (boot c st).2).2.2 := by
  have hb : boot c st = (c.setBooted, pushCurrent c st) := by
    simp [boot, h]
  have hbb : (c.setBooted).booted = true := setBooted_booted c
  refine ⟨?_, ?_, ?_, ?_, ?_, ?_⟩ <;>
    simp [build, boot, h, hb, hbb, buildConfigs_setBooted]

/-- Witness for `build_autoboots` at a concrete input. -/
theorem build_autoboots_inst :
    (build (newMix "Mix") []).2.1 = [warnMessage] :=
  (build_autoboots (newMix "Mix") [] rfl).1

/-!
Infrastructure lemmas about Part B: how each registrar operation
transforms the state.
-/

/-- Auxiliary: `getD` on an append, index inside the first list. -/
theorem getD_append_left {α : Type} (l l' : List α) (d : α) :
    ∀ n, n < l.length → (l ++ l').getD n d = l.getD n d := by
  induction l with
  | nil => intro n h; simp at h
  | cons x xs ih =>
    intro n h
    cases n with
    | zero => rfl
    | succ m => exact ih m (by simpa using h)

/-- Auxiliary: `getD` at the index right past a list. -/
theorem getD_append_self {α : Type} (l : List α) (x : α) (d : α) :
    (l ++ [x]).getD l.length d = x := by
  induction l with
  | nil => rfl
  | cons y ys ih => exact ih

/-- Auxiliary: `getD` past the end of a list gives the default. -/
theorem getD_past_length {α : Type} (l : List α) (d : α) :
    ∀ n, l.length ≤ n → l.getD n d = d := by
  induction l with
  | nil => intro n _; cases n <;> rfl
  | cons x xs ih =>
    intro n h
    cases n with
    | zero => simp at h
    | succ m => exact ih m (by simpa using h)

/-- `getComp` only reads the `comps` field. -/
theorem getComp_congr {s1 s2 : RegState} (h : s1.comps = s2.comps)
    (cid : Nat) : getComp s1 cid = getComp s2 cid := by
  simp [getComp, h]

/-- The default component carries no capability at all. -/
theorem default_component_passive : (default : Component).passive = false := rfl

/-- The default component has no boot hook. -/
theorem default_component_hasBoot : (default : Component).hasBoot = false := rfl

/-- Components already installed are untouched when the `comps` list
grows at the end. -/
theorem getComp_of_comps_append {s1 s2 : RegState} (tl : List Component)
    (h : s2.comps = s1.comps ++ tl) (cid : Nat) (hlt : cid < s1.comps.length) :
    getComp s2 cid = getComp s1 cid := by
  simp only [getComp, h]
  exact getD_append_left s1.comps tl default cid hlt

/-- `invokeVerbClosure` leaves `comps`, `listeners`, `verbs` and
`depQueue` unchanged. -/
theorem invokeVerbClosure_parts (st : RegState) (cid : Nat) (name : String)
    (args : List Nat) :
    (invokeVerbClosure st cid name args).comps = st.comps ∧
    (invokeVerbClosure st cid name args).listeners = st.listeners ∧
    (invokeVerbClosure st cid name args).verbs = st.verbs ∧
    (invokeVerbClosure st cid name args).depQueue = st.depQueue := by
  simp [invokeVerbClosure]

/-- The `activated` flag of another component is untouched by a verb
invocation, and the invoked component's flag is set. -/
theorem invokeVerbClosure_activated (st : RegState) (cid : Nat)
    (name : String) (args : List Nat) (j : Nat) :
    (invokeVerbClosure st cid name args).activated j =
      if j = cid then true else st.activated j := rfl

/-- Trace effect of a verb invocation. -/
theorem invokeVerbClosure_trace (st : RegState) (cid : Nat) (name : String)
    (args : List Nat) :
    (invokeVerbClosure st cid name args).trace =
      st.trace ++ [HookCall.verbInvoked cid name args] ++
        (if (getComp st cid).hasRegister then [HookCall.register cid args] else []) := rfl

/-- `runVerb` either leaves the state unchanged or dispatches to the
verb closure the lookup found. -/
theorem runVerb_cases (st : RegState) (n : String) (args : List Nat) :
    runVerb st n args = st ∨
    ∃ cid, lookupVerb st.verbs n = some (VerbTarget.verbClosure cid) ∧
      runVerb st n args = invokeVerbClosure st cid n args := by
  unfold runVerb
  rcases h : lookupVerb st.verbs n with _ | t
  · exact Or.inl rfl
  · cases t with
    | verbClosure cid => exact Or.inr ⟨cid, rfl, rfl⟩
    | mixExt j k => exact Or.inl rfl

/-- The freshest assignment wins in the verb map. -/
theorem lookupVerb_append_last (vs : List (String × VerbTarget)) (n : String)
    (t : VerbTarget) : lookupVerb (vs ++ [(n, t)]) n = some t := by
  induction vs with
  | nil => simp [lookupVerb]
  | cons p rest ih => simp [lookupVerb, ih]

/-- `registerOneName` changes only `verbs`, `activated`, `caller`,
`records` and `trace`: `comps`, `listeners` and `depQueue` are
untouched. -/
theorem registerOneName_parts (cid : Nat) (c : Component) (st : RegState)
    (n : String) :
    (registerOneName cid c st n).comps = st.comps ∧
    (registerOneName cid c st n).listeners = st.listeners ∧
    (registerOneName cid c st n).depQueue = st.depQueue := by
  unfold registerOneName
  cases hp : c.passive <;> cases hm : c.mixKeys.isEmpty <;>
    simp [hp, hm, runVerb, lookupVerb_append_last, invokeVerbClosure]

/-- Trace effect of one `register(name)` iteration. -/
theorem registerOneName_trace (cid : Nat) (c : Component) (st : RegState)
    (n : String) :
    (registerOneName cid c st n).trace = st.trace ++
      (if c.passive then
        HookCall.verbInvoked cid n [] ::
          (if (getComp st cid).hasRegister then [HookCall.register cid []] else [])
       else []) := by
  unfold registerOneName
  cases hp : c.passive <;> cases hm : c.mixKeys.isEmpty <;>
    simp [hp, hm, runVerb, lookupVerb_append_last, invokeVerbClosure, getComp]

/-- Activation effect of one `register(name)` iteration. -/
theorem registerOneName_activated (cid : Nat) (c : Component) (st : RegState)
    (n : String) (j : Nat) :
    (registerOneName cid c st n).activated j =
      if c.passive = true ∧ j = cid then true else st.activated j := by
  unfold registerOneName
  cases hp : c.passive <;> cases hm : c.mixKeys.isEmpty <;>
    by_cases hj : j = cid <;>
      simp [hp, hm, hj, runVerb, lookupVerb_append_last, invokeVerbClosure]

/-- Verb-map effect of one `register(name)` iteration: every entry of
the result is an old entry or points at this component. -/
theorem registerOneName_verbs (cid : Nat) (c : Component) (st : RegState)
    (n : String) :
    ∀ p ∈ (registerOneName cid c st n).verbs,
      p ∈ st.verbs ∨ targetCid p.2 = cid := by
  unfold registerOneName
  cases hp : c.passive <;> cases hm : c.mixKeys.isEmpty <;>
    simp only [hp, hm, runVerb, lookupVerb_append_last, invokeVerbClosure,
      ite_true, ite_false, Bool.false_eq_true, Bool.true_eq_false,
      if_true, if_false] <;>
    intro p hp2 <;>
    first
      | (rcases List.mem_append.mp hp2 with h | h
         · rcases List.mem_append.mp h with h2 | h2
           · exact Or.inl h2
           · rcases List.mem_singleton.mp h2 with rfl
             exact Or.inr rfl
         · rcases List.mem_map.mp h with ⟨k, _, hk⟩
           subst hk
           exact Or.inr rfl)
      | (rcases List.mem_append.mp hp2 with h | h
         · exact Or.inl h
         · rcases List.mem_singleton.mp h with rfl
           exact Or.inr rfl)

/-- `registerComponent` (the fold over the verb names) leaves `comps`,
`listeners` and `depQueue` unchanged. -/
theorem registerComponent_parts (cid : Nat) (c : Component) :
    ∀ (ns : List String) (st : RegState),
    ((ns.foldl (registerOneName cid c) st).comps = st.comps ∧
     (ns.foldl (registerOneName cid c) st).listeners = st.listeners ∧
     (ns.foldl (registerOneName cid c) st).depQueue = st.depQueue) := by
  intro ns
  induction ns with
  | nil => intro st; exact ⟨rfl, rfl, rfl⟩
  | cons n rest ih =>
    intro st
    have h1 := registerOneName_parts cid c st n
    have h2 := ih (registerOneName cid c st n)
    exact ⟨h2.1.trans h1.1, h2.2.1.trans h1.2.1, h2.2.2.trans h1.2.2⟩

/-- Trace effect of `registerComponent`: one verb-invocation record (and
optional register-hook call) per name when the component is passive,
nothing otherwise. -/
theorem registerComponent_fold_trace (cid : Nat) (c : Component) :
    ∀ (ns : List String) (st : RegState),
    (ns.foldl (registerOneName cid c) st).trace = st.trace ++
      ns.flatMap (fun n =>
        if c.passive then
          HookCall.verbInvoked cid n [] ::
            (if (getComp st cid).hasRegister then [HookCall.register cid []] else [])
        else []) := by
  intro ns
  induction ns with
  | nil => intro st; simp
  | cons n rest ih =>
    intro st
    have hcomps : (registerOneName cid c st n).comps = st.comps :=
      (registerOneName_parts cid c st n).1
    have hg : getComp (registerOneName cid c st n) cid = getComp st cid :=
      getComp_congr hcomps cid
    rw [List.foldl_cons, ih (registerOneName cid c st n),
      registerOneName_trace, hg]
    simp [List.flatMap_cons]

/-- Activation effect of `registerComponent`: other components are
untouched. -/
theorem registerComponent_fold_activated_ne (cid : Nat) (c : Component) :
    ∀ (ns : List String) (st : RegState) (j : Nat), j ≠ cid →
    (ns.foldl (registerOneName cid c) st).activated j = st.activated j := by
  intro ns
  induction ns with
  | nil => intro st j _; rfl
  | cons n rest ih =>
    intro st j hj
    rw [List.foldl_cons, ih (registerOneName cid c st n) j hj,
      registerOneName_activated]
    simp [hj]

/-- Activation effect of `registerComponent` on a non-passive component:
nothing is activated. -/
theorem registerComponent_fold_activated_nonpassive (cid : Nat)
    (c : Component) (hp : c.passive = false) :
    ∀ (ns : List String) (st : RegState) (j : Nat),
    (ns.foldl (registerOneName cid c) st).activated j = st.activated j := by
  intro ns
  induction ns with
  | nil => intro st j; rfl
  | cons n rest ih =>
    intro st j
    rw [List.foldl_cons, ih (registerOneName cid c st n) j,
      registerOneName_activated]
    simp [hp]

/-- The `activated` flag is never cleared by `registerComponent`. -/
theorem registerComponent_fold_activated_mono (cid : Nat) (c : Component) :
    ∀ (ns : List String) (st : RegState) (j : Nat),
    st.activated j = true →
    (ns.foldl (registerOneName cid c) st).activated j = true := by
  intro ns
  induction ns with
  | nil => intro st j h; exact h
  | cons n rest ih =>
    intro st j h
    rw [List.foldl_cons]
    refine ih (registerOneName cid c st n) j ?_
    rw [registerOneName_activated]
    by_cases hc : c.passive = true ∧ j = cid <;> simp [hc, h]

/-- A passive component that registers at least one name ends up
activated. -/
theorem registerComponent_fold_activated_passive (cid : Nat) (c : Component)
    (hp : c.passive = true) :
    ∀ (ns : List String) (st : RegState), ns ≠ [] →
    (ns.foldl (registerOneName cid c) st).activated cid = true := by
  intro ns
  induction ns with
  | nil => intro st h; exact absurd rfl h
  | cons n rest ih =>
    intro st _
    rw [List.foldl_cons]
    refine registerComponent_fold_activated_mono cid c rest
      (registerOneName cid c st n) cid ?_
    rw [registerOneName_activated]
    simp [hp]

/-- Verb-map effect of `registerComponent`: every entry of the result
is an old entry or points at this component. -/
theorem registerComponent_fold_verbs (cid : Nat) (c : Component) :
    ∀ (ns : List String) (st : RegState),
    ∀ p ∈ (ns.foldl (registerOneName cid c) st).verbs,
      p ∈ st.verbs ∨ targetCid p.2 = cid := by
  intro ns
  induction ns with
  | nil => intro st p hp; exact Or.inl hp
  | cons n rest ih =>
    intro st p hp
    rw [List.foldl_cons] at hp
    rcases ih (registerOneName cid c st n) p hp with h | h
    · exact registerOneName_verbs cid c st n p h
    · exact Or.inr h

/-- `installComp` appends the component. -/
theorem installComp_comps (st : RegState) (c : Component) :
    (installComp st c).comps = st.comps ++ [c] :=
  (registerComponent_parts (newCid st) c (namesOf c)
    { st with comps := st.comps ++ [c] }).1

/-- `installComp` appends exactly the two permanent listeners. -/
theorem installComp_listeners (st : RegState) (c : Component) :
    (installComp st c).listeners = st.listeners ++
      [("internal:gather-dependencies", Listener.gatherDeps (newCid st)),
       ("init", Listener.onInit (newCid st))] := by
  have h := (registerComponent_parts (newCid st) c (namesOf c)
    { st with comps := st.comps ++ [c] }).2.1
  show ((namesOf c).foldl (registerOneName (newCid st) c)
      { st with comps := st.comps ++ [c] }).listeners ++ _ = _
  rw [h]
  rfl

/-- Trace effect of `installComp`. -/
theorem installComp_trace (st : RegState) (c : Component) :
    (installComp st c).trace = st.trace ++
      (namesOf c).flatMap (fun n =>
        if c.passive then
          HookCall.verbInvoked (newCid st) n [] ::
            (if c.hasRegister then [HookCall.register (newCid st) []] else [])
        else []) := by
  have hg : getComp { st with comps := st.comps ++ [c] } (newCid st) = c := by
    simp only [getComp]
    exact getD_append_self st.comps c default
  have h := registerComponent_fold_trace (newCid st) c (namesOf c)
    { st with comps := st.comps ++ [c] }
  rw [hg] at h
  exact h

/-- Activation effect of `installComp` on other components. -/
theorem installComp_activated_ne (st : RegState) (c : Component) (j : Nat)
    (hj : j ≠ newCid st) :
    (installComp st c).activated j = st.activated j :=
  registerComponent_fold_activated_ne (newCid st) c (namesOf c)
    { st with comps := st.comps ++ [c] } j hj

/-- Activation effect of `installComp` on a non-passive component. -/
theorem installComp_activated_nonpassive (st : RegState) (c : Component)
    (hp : c.passive = false) (j : Nat) :
    (installComp st c).activated j = st.activated j :=
  registerComponent_fold_activated_nonpassive (newCid st) c hp (namesOf c)
    { st with comps := st.comps ++ [c] } j

/-- A passive component is activated by its own install. -/
theorem installComp_activated_passive (st : RegState) (c : Component)
    (hp : c.passive = true) (hns : namesOf c ≠ []) :
    (installComp st c).activated (newCid st) = true :=
  registerComponent_fold_activated_passive (newCid st) c hp (namesOf c)
    { st with comps := st.comps ++ [c] } hns

/-- `installComp` never clears an `activated` flag. -/
theorem installComp_activated_mono (st : RegState) (c : Component) (j : Nat)
    (h : st.activated j = true) : (installComp st c).activated j = true :=
  registerComponent_fold_activated_mono (newCid st) c (namesOf c)
    { st with comps := st.comps ++ [c] } j h

/-- Verb-map effect of `installComp`. -/
theorem installComp_verbs (st : RegState) (c : Component) :
    ∀ p ∈ (installComp st c).verbs,
      p ∈ st.verbs ∨ targetCid p.2 = newCid st := fun p hp =>
  registerComponent_fold_verbs (newCid st) c (namesOf c)
    { st with comps := st.comps ++ [c] } p hp

/-- `runListener` leaves `comps`, `activated`, `caller`, `verbs` and
`records` unchanged. -/
theorem runListener_parts (st : RegState) (l : Listener) :
    (runListener st l).comps = st.comps ∧
    (runListener st l).activated = st.activated ∧
    (runListener st l).verbs = st.verbs ∧
    (runListener st l).records = st.records := by
  cases l <;>
    (simp only [runListener]
     repeat' split) <;>
    exact ⟨rfl, rfl, rfl, rfl⟩

/-- Trace effect of `runListener`: entries are only appended, they all
belong to the listener's component, and none is a verb-invocation
marker. -/
theorem runListener_trace (st : RegState) (l : Listener) :
    ∃ tl, (runListener st l).trace = st.trace ++ tl ∧
      ∀ h ∈ tl, hookCid h = listenerCid l ∧
        (∀ j, isVerbInvokedOf j h = false) ∧
        (∀ k, isContrib k h = true → isFwd k l = true) := by
  cases l with
  | gatherDeps cid =>
    by_cases h1 : (!st.activated cid && !(getComp st cid).passive) = true
    · exact ⟨[], by simp [runListener, h1], by simp⟩
    · by_cases h2 : (getComp st cid).hasDependencies = true
      · refine ⟨[HookCall.dependencies cid], by simp [runListener, h1, h2], ?_⟩
        intro h hm
        rcases List.mem_singleton.mp hm with rfl
        exact ⟨rfl, fun j => rfl, fun k hk => by simp [isContrib] at hk⟩
      · exact ⟨[], by simp [runListener, h1, h2], by simp⟩
  | onInit cid =>
    by_cases h1 : (!st.activated cid && !(getComp st cid).passive) = true
    · exact ⟨[], by simp [runListener, h1], by simp⟩
    · refine ⟨(if (getComp st cid).hasBoot then [HookCall.boot cid] else []) ++
        (if (getComp st cid).hasBabelConfig then [HookCall.babelConfig cid] else []),
        ?_, ?_⟩
      · by_cases hb : (getComp st cid).hasBoot = true <;>
          by_cases hc : (getComp st cid).hasBabelConfig = true <;>
            simp [runListener, h1, hb, hc]
      · intro h hm
        have hcases : h = HookCall.boot cid ∨ h = HookCall.babelConfig cid := by
          rcases List.mem_append.mp hm with h2 | h2
          · left
            by_cases hb : (getComp st cid).hasBoot = true
            · simpa [hb] using h2
            · simp [hb] at h2
          · right
            by_cases hc : (getComp st cid).hasBabelConfig = true
            · simpa [hc] using h2
            · simp [hc] at h2
        rcases hcases with rfl | rfl
        · exact ⟨rfl, fun j => rfl, fun k hk => by simp [isContrib] at hk⟩
        · exact ⟨rfl, fun j => rfl, fun k hk => by simp [isContrib] at hk⟩
  | entryFwd cid =>
    by_cases h1 : (getComp st cid).hasWebpackEntry = true
    · refine ⟨[HookCall.webpackEntry cid], by simp [runListener, h1], ?_⟩
      intro h hm
      rcases List.mem_singleton.mp hm with rfl
      exact ⟨rfl, fun j => rfl, fun k hk => hk⟩
    · exact ⟨[], by simp [runListener, h1], by simp⟩
  | rulesFwd cid =>
    by_cases h1 : (getComp st cid).hasWebpackRules = true
    · refine ⟨[HookCall.webpackRules cid], by simp [runListener, h1], ?_⟩
      intro h hm
      rcases List.mem_singleton.mp hm with rfl
      exact ⟨rfl, fun j => rfl, fun k hk => hk⟩
    · exact ⟨[], by simp [runListener, h1], by simp⟩
  | pluginsFwd cid =>
    by_cases h1 : (getComp st cid).hasWebpackPlugins = true
    · refine ⟨[HookCall.webpackPlugins cid], by simp [runListener, h1], ?_⟩
      intro h hm
      rcases List.mem_singleton.mp hm with rfl
      exact ⟨rfl, fun j => rfl, fun k hk => hk⟩
    · exact ⟨[], by simp [runListener, h1], by simp⟩
  | configFwd cid =>
    by_cases h1 : (getComp st cid).hasWebpackConfig = true
    · refine ⟨[HookCall.webpackConfig cid], by simp [runListener, h1], ?_⟩
      intro h hm
      rcases List.mem_singleton.mp hm with rfl
      exact ⟨rfl, fun j => rfl, fun k hk => hk⟩
    · exact ⟨[], by simp [runListener, h1], by simp⟩

/-- Listener effect of `runListener`: registrations are only appended,
and every appended registration is a second-order forwarder for the
listener's own component. -/
theorem runListener_listeners (st : RegState) (l : Listener) :
    ∃ ll, (runListener st l).listeners = st.listeners ++ ll ∧
      ∀ p ∈ ll, listenerCid p.2 = listenerCid l ∧
        (∀ k, isFwd k p.2 = (listenerCid l == k)) ∧
        l = Listener.onInit (listenerCid l) := by
  cases l with
  | gatherDeps cid =>
    by_cases h1 : (!st.activated cid && !(getComp st cid).passive) = true
    · exact ⟨[], by simp [runListener, h1], by simp⟩
    · by_cases h2 : (getComp st cid).hasDependencies = true
      · exact ⟨[], by simp [runListener, h1, h2], by simp⟩
      · exact ⟨[], by simp [runListener, h1, h2], by simp⟩
  | onInit cid =>
    by_cases h1 : (!st.activated cid && !(getComp st cid).passive) = true
    · exact ⟨[], by simp [runListener, h1], by simp⟩
    · refine ⟨[("loading-entry", Listener.entryFwd cid),
        ("loading-rules", Listener.rulesFwd cid),
        ("loading-plugins", Listener.pluginsFwd cid),
        ("configReady", Listener.configFwd cid)], ?_, ?_⟩
      · by_cases hb : (getComp st cid).hasBoot = true <;>
          by_cases hc : (getComp st cid).hasBabelConfig = true <;>
            simp [runListener, h1, hb, hc]
      · intro p hp
        simp only [List.mem_cons, List.not_mem_nil, or_false] at hp
        rcases hp with rfl | rfl | rfl | rfl
        · exact ⟨rfl, fun k => rfl, rfl⟩
        · exact ⟨rfl, fun k => rfl, rfl⟩
        · exact ⟨rfl, fun k => rfl, rfl⟩
        · exact ⟨rfl, fun k => rfl, rfl⟩
  | entryFwd cid =>
    by_cases h1 : (getComp st cid).hasWebpackEntry = true <;>
      exact ⟨[], by simp [runListener, h1], by simp⟩
  | rulesFwd cid =>
    by_cases h1 : (getComp st cid).hasWebpackRules = true <;>
      exact ⟨[], by simp [runListener, h1], by simp⟩
  | pluginsFwd cid =>
    by_cases h1 : (getComp st cid).hasWebpackPlugins = true <;>
      exact ⟨[], by simp [runListener, h1], by simp⟩
  | configFwd cid =>
    by_cases h1 : (getComp st cid).hasWebpackConfig = true <;>
      exact ⟨[], by simp [runListener, h1], by simp⟩

/-- A handler-list fold leaves `comps`, `activated`, `verbs` and
`records` unchanged. -/
theorem foldListeners_parts :
    ∀ (hs : List Listener) (st : RegState),
    ((hs.foldl runListener st).comps = st.comps ∧
     (hs.foldl runListener st).activated = st.activated ∧
     (hs.foldl runListener st).verbs = st.verbs ∧
     (hs.foldl runListener st).records = st.records) := by
  intro hs
  induction hs with
  | nil => intro st; exact ⟨rfl, rfl, rfl, rfl⟩
  | cons l rest ih =>
    intro st
    have h1 := runListener_parts st l
    have h2 := ih (runListener st l)
    exact ⟨h2.1.trans h1.1, h2.2.1.trans h1.2.1, h2.2.2.1.trans h1.2.2.1,
      h2.2.2.2.trans h1.2.2.2⟩

/-- A handler-list fold only appends trace entries, and none of them is
a verb-invocation marker. -/
theorem foldListeners_trace :
    ∀ (hs : List Listener) (st : RegState),
    ∃ tl, (hs.foldl runListener st).trace = st.trace ++ tl ∧
      ∀ h ∈ tl, ∀ j, isVerbInvokedOf j h = false := by
  intro hs
  induction hs with
  | nil => intro st; exact ⟨[], by simp, by simp⟩
  | cons l rest ih =>
    intro st
    rcases runListener_trace st l with ⟨t1, ht1, hp1⟩
    rcases ih (runListener st l) with ⟨t2, ht2, hp2⟩
    refine ⟨t1 ++ t2, ?_, ?_⟩
    · rw [List.foldl_cons, ht2, ht1, List.append_assoc]
    · intro h hm j
      rcases List.mem_append.mp hm with h2 | h2
      · exact (hp1 h h2).2.1 j
      · exact hp2 h h2 j

/-- `fireEvent` equals a handler-list fold over the snapshot of the
event's registered handlers. -/
theorem fireEvent_eq (st : RegState) (e : String) :
    fireEvent st e =
      ((st.listeners.filter (fun p => p.1 == e)).map Prod.snd).foldl
        runListener st := rfl

/-- Every handler in a fire's snapshot comes from the listener list. -/
theorem fireEvent_snapshot_mem (st : RegState) (e : String) :
    ∀ l ∈ (st.listeners.filter (fun p => p.1 == e)).map Prod.snd,
      ∃ p ∈ st.listeners, p.2 = l := by
  intro l hl
  rcases List.mem_map.mp hl with ⟨p, hp, hpl⟩
  exact ⟨p, (List.mem_filter.mp hp).1, hpl⟩

/-- A `step` only appends to `comps`. -/
theorem step_comps_extend (st : RegState) (op : Op) :
    ∃ tl, (step st op).comps = st.comps ++ tl := by
  cases op with
  | install c => exact ⟨[c], installComp_comps st c⟩
  | invoke n args =>
    rcases runVerb_cases st n args with h | ⟨cid, _, h⟩
    · exact ⟨[], by simp [step, h]⟩
    · exact ⟨[], by simp [step, h, (invokeVerbClosure_parts st cid n args).1]⟩
  | fire e =>
    refine ⟨[], ?_⟩
    have h := (foldListeners_parts
      ((st.listeners.filter (fun p => p.1 == e)).map Prod.snd) st).1
    simp [step, fireEvent_eq, h]

/-- A `step` only appends to the trace. -/
theorem step_trace_extend (st : RegState) (op : Op) :
    ∃ tl, (step st op).trace = st.trace ++ tl := by
  cases op with
  | install c => exact ⟨_, installComp_trace st c⟩
  | invoke n args =>
    rcases runVerb_cases st n args with h | ⟨cid, _, h⟩
    · exact ⟨[], by simp [step, h]⟩
    · refine ⟨[HookCall.verbInvoked cid n args] ++
        (if (getComp st cid).hasRegister then [HookCall.register cid args] else []), ?_⟩
      show (runVerb st n args).trace = _
      rw [h, invokeVerbClosure_trace, List.append_assoc]
  | fire e =>
    rcases foldListeners_trace
      ((st.listeners.filter (fun p => p.1 == e)).map Prod.snd) st with ⟨tl, h, _⟩
    exact ⟨tl, h⟩

/-- A whole run only appends to `comps`. -/
theorem fold_comps_extend :
    ∀ (ops : List Op) (st : RegState),
    ∃ tl, (ops.foldl step st).comps = st.comps ++ tl := by
  intro ops
  induction ops with
  | nil => intro st; exact ⟨[], by simp⟩
  | cons op rest ih =>
    intro st
    rcases step_comps_extend st op with ⟨t1, h1⟩
    rcases ih (step st op) with ⟨t2, h2⟩
    exact ⟨t1 ++ t2, by rw [List.foldl_cons, h2, h1, List.append_assoc]⟩

/-- A whole run only appends to the trace. -/
theorem fold_trace_extend :
    ∀ (ops : List Op) (st : RegState),
    ∃ tl, (ops.foldl step st).trace = st.trace ++ tl := by
  intro ops
  induction ops with
  | nil => intro st; exact ⟨[], by simp⟩
  | cons op rest ih =>
    intro st
    rcases step_trace_extend st op with ⟨t1, h1⟩
    rcases ih (step st op) with ⟨t2, h2⟩
    exact ⟨t1 ++ t2, by rw [List.foldl_cons, h2, h1, List.append_assoc]⟩

/-- Components already installed are never modified by later
operations. -/
theorem getComp_fold_preserved (ops : List Op) (st : RegState) (cid : Nat)
    (hlt : cid < st.comps.length) :
    getComp (ops.foldl step st) cid = getComp st cid := by
  rcases fold_comps_extend ops st with ⟨tl, h⟩
  exact getComp_of_comps_append tl h cid hlt

/-- An uninstalled index reads the hook-free default component. -/
theorem getComp_default (st : RegState) (cid : Nat)
    (h : st.comps.length ≤ cid) : getComp st cid = default := by
  simp only [getComp]
  exact getD_past_length st.comps default cid h

/-- Passivity transfers backward along a run: when the component is
non-passive at the end, it was non-passive (or not yet installed, hence
read as the non-passive default) at every earlier state. -/
theorem passive_false_back (ops : List Op) (st : RegState) (cid : Nat)
    (h : (getComp (ops.foldl step st) cid).passive = false) :
    (getComp st cid).passive = false := by
  by_cases hlt : cid < st.comps.length
  · rw [getComp_fold_preserved ops st cid hlt] at h
    exact h
  · rw [getComp_default st cid (Nat.le_of_not_lt hlt)]
    rfl

/-- The boot capability transfers backward along a run for installed
components. -/
theorem hasBoot_back (ops : List Op) (st : RegState) (cid : Nat)
    (hlt : cid < st.comps.length)
    (h : (getComp (ops.foldl step st) cid).hasBoot = true) :
    (getComp st cid).hasBoot = true := by
  rw [getComp_fold_preserved ops st cid hlt] at h
  exact h

/-- C6: invoking a published verb callable records the component against
the verb name in the build-record ledger, sets the component's `caller`
to that name, invokes the component's `register` hook (when present)
with exactly the given arguments, and sets the `activated` flag. -/
theorem verb_invocation_effects (st : RegState) (cid : Nat) (name : String)
    (args : List Nat)
    (hlk : lookupVerb st.verbs name = some (VerbTarget.verbClosure cid)) :
    (runVerb st name args).records = st.records ++ [(name, cid)] ∧
    (runVerb st name args).caller cid = some name ∧
    (runVerb st name args).trace =
      st.trace ++ [HookCall.verbInvoked cid name args] ++
        (if (getComp st cid).hasRegister then [HookCall.register cid args] else []) ∧
    (runVerb st name args).activated cid = true := by
  unfold runVerb
  rw [hlk]
  refine ⟨rfl, ?_, rfl, ?_⟩ <;> simp [invokeVerbClosure]

/-- Witness for `verb_invocation_effects` at a concrete input: a `Vue`
style component installed into a fresh context, invoked as
`mix.vue(1, 2)`. -/
theorem verb_invocation_effects_inst :
    (runVerb (run [Op.install vueComp]) "vue" [1, 2]).records =
      (run [Op.install vueComp]).records ++ [("vue", 0)] ∧
    (runVerb (run [Op.install vueComp]) "vue" [1, 2]).activated 0 = true :=
  ⟨(verb_invocation_effects (run [Op.install vueComp]) 0 "vue" [1, 2]
      (by decide)).1,
   (verb_invocation_effects (run [Op.install vueComp]) 0 "vue" [1, 2]
      (by decide)).2.2.2⟩

/-- `countVI` distributes over appends. -/
theorem countVI_append (cid : Nat) (name : String) (t tl : List HookCall) :
    countVI cid name (t ++ tl) = countVI cid name t + countVI cid name tl := by
  simp [countVI, List.filter_append]

/-- A single non-invocation entry counts zero. -/
theorem countVI_singleton_not_vi (cid : Nat) (name : String) (x : HookCall)
    (hx : ∀ j, isVerbInvokedOf j x = false) : countVI cid name [x] = 0 := by
  cases x with
  | verbInvoked j m a =>
    have := hx j
    simp [isVerbInvokedOf] at this
  | register j a => rfl
  | boot j => rfl
  | babelConfig j => rfl
  | dependencies j => rfl
  | webpackEntry j => rfl
  | webpackRules j => rfl
  | webpackPlugins j => rfl
  | webpackConfig j => rfl

/-- A trace segment without verb-invocation markers counts zero. -/
theorem countVI_of_noVI (cid : Nat) (name : String) :
    ∀ tl : List HookCall, (∀ h ∈ tl, ∀ j, isVerbInvokedOf j h = false) →
    countVI cid name tl = 0 := by
  intro tl
  induction tl with
  | nil => intro _; rfl
  | cons x rest ih =>
    intro hp
    have hrest := ih (fun h hm j => hp h (List.mem_cons_of_mem x hm) j)
    have hhd := countVI_singleton_not_vi cid name x
      (fun j => hp x (List.mem_cons_self _ _) j)
    rw [show x :: rest = [x] ++ rest from rfl, countVI_append, hrest, hhd]

/-- Count of the verb invocations appended by one install. -/
theorem countVI_install_delta (cid cid0 : Nat) (name : String) (c : Component) :
    ∀ ns : List String,
    countVI cid name (ns.flatMap (fun n =>
      if c.passive then
        HookCall.verbInvoked cid0 n [] ::
          (if c.hasRegister then [HookCall.register cid0 []] else [])
      else [])) =
    if cid0 = cid ∧ c.passive = true then ns.count name else 0 := by
  intro ns
  induction ns with
  | nil =>
    by_cases h : cid0 = cid ∧ c.passive = true <;> simp [countVI, h]
  | cons n rest ih =>
    rw [List.flatMap_cons, countVI_append, ih]
    by_cases hp : c.passive = true
    · have hhead : countVI cid name
          (HookCall.verbInvoked cid0 n [] ::
            (if c.hasRegister then [HookCall.register cid0 []] else [])) =
          if cid0 == cid && n == name then 1 else 0 := by
        by_cases hr : c.hasRegister = true <;>
          by_cases hq : (cid0 == cid && n == name) = true <;>
            simp [countVI, List.filter_cons, hr, hq]
      rw [if_pos hp, hhead]
      by_cases hc : cid0 = cid
      · subst hc
        by_cases hn : n = name
        · subst hn
          simp [hp, List.count_cons, Nat.add_comm]
        · simp [hp, List.count_cons, hn]
      · have hb : (cid0 == cid) = false := by simp [hc]
        simp [hb, hc]
    · have hp2 : c.passive = false := by
        cases h : c.passive
        · rfl
        · exact absurd h hp
      simp [hp2, countVI]

/-- Every trace entry appended by one install mentions only the new
component: it is one of its verb-invocation markers (with empty
arguments) or one of its register-hook calls. -/
theorem install_delta_mem (cid0 : Nat) (c : Component) :
    ∀ (ns : List String) (h : HookCall),
    h ∈ ns.flatMap (fun n =>
      if c.passive then
        HookCall.verbInvoked cid0 n [] ::
          (if c.hasRegister then [HookCall.register cid0 []] else [])
      else []) →
    (∃ n, h = HookCall.verbInvoked cid0 n []) ∨ h = HookCall.register cid0 [] := by
  intro ns h hm
  rcases List.mem_flatMap.mp hm with ⟨n, _, hin⟩
  by_cases hp : c.passive = true
  · rw [if_pos hp] at hin
    rcases List.mem_cons.mp hin with rfl | h2
    · exact Or.inl ⟨n, rfl⟩
    · by_cases hr : c.hasRegister = true
      · rw [if_pos hr] at h2
        rcases List.mem_singleton.mp h2 with rfl
        exact Or.inr rfl
      · simp [hr] at h2
  · simp [hp] at hin

/-- Reading the newly installed component back. -/
theorem getComp_install_self (st : RegState) (c : Component) :
    getComp (installComp st c) (newCid st) = c := by
  simp only [getComp, installComp_comps]
  exact getD_append_self st.comps c default

/-- Installing one component leaves every other index unchanged. -/
theorem getComp_install_other (st : RegState) (c : Component) (cid : Nat)
    (h : cid ≠ newCid st) :
    getComp (installComp st c) cid = getComp st cid := by
  by_cases hlt : cid < st.comps.length
  · exact getComp_of_comps_append [c] (installComp_comps st c) cid hlt
  · have h1 : st.comps.length ≤ cid := Nat.le_of_not_lt hlt
    have h2 : st.comps.length < cid := by
      rcases Nat.lt_or_ge st.comps.length cid with h3 | h3
      · exact h3
      · exact absurd (Nat.le_antisymm h1 h3).symm h
    rw [getComp_default st cid h1]
    refine getComp_default (installComp st c) cid ?_
    rw [installComp_comps]
    simp
    omega

/-- One operation of an invocation-free run preserves the C7
invariant. -/
theorem step_preserves_C7Inv (cid : Nat) (name : String) (st : RegState)
    (op : Op) (hop : isInvokeOp op = false) (h : C7Inv cid name st) :
    C7Inv cid name (step st op) := by
  rcases h with ⟨h1, h2, h3⟩
  cases op with
  | invoke n args => simp [isInvokeOp] at hop
  | install c =>
    show C7Inv cid name (installComp st c)
    by_cases hc : newCid st = cid
    · have hge : st.comps.length ≤ cid := by rw [← hc]; exact Nat.le_refl _
      have hold : getComp st cid = default := getComp_default st cid hge
      have hnew : getComp (installComp st c) cid = c := by
        rw [← hc]; exact getComp_install_self st c
      refine ⟨?_, ?_, ?_⟩
      · rw [installComp_trace, countVI_append, hnew]
        rw [hold] at h1
        simp only [default_component_passive, Bool.false_eq_true, if_false] at h1
        rw [h1, countVI_install_delta]
        simp [hc]
      · intro m a hm
        rw [installComp_trace] at hm
        rcases List.mem_append.mp hm with hmem | hmem
        · exact h2 m a hmem
        · rcases install_delta_mem (newCid st) c (namesOf c)
            (HookCall.verbInvoked cid m a) hmem with ⟨n, hn⟩ | hn
          · injection hn
          · exact absurd hn (by simp)
      · intro _ hpass hns
        rw [hnew] at hpass hns
        rw [← hc]
        exact installComp_activated_passive st c hpass hns
    · have hne : cid ≠ newCid st := fun h => hc h.symm
      have hg : getComp (installComp st c) cid = getComp st cid :=
        getComp_install_other st c cid hne
      refine ⟨?_, ?_, ?_⟩
      · rw [installComp_trace, countVI_append, hg, h1, countVI_install_delta]
        simp [hc]
      · intro m a hm
        rw [installComp_trace] at hm
        rcases List.mem_append.mp hm with hmem | hmem
        · exact h2 m a hmem
        · rcases install_delta_mem (newCid st) c (namesOf c)
            (HookCall.verbInvoked cid m a) hmem with ⟨n, hn⟩ | hn
          · injection hn
          · exact absurd hn (by simp)
      · intro hlt hpass hns
        rw [hg] at hpass hns
        rw [installComp_activated_ne st c cid hne]
        refine h3 ?_ hpass hns
        rw [installComp_comps] at hlt
        simp at hlt
        have hne2 : cid ≠ st.comps.length := hne
        omega
  | fire e =>
    show C7Inv cid name (fireEvent st e)
    rw [fireEvent_eq]
    have hparts := foldListeners_parts
      ((st.listeners.filter (fun p => p.1 == e)).map Prod.snd) st
    rcases foldListeners_trace
      ((st.listeners.filter (fun p => p.1 == e)).map Prod.snd) st with ⟨tl, ht, hnvi⟩
    have hg := getComp_congr hparts.1 cid
    refine ⟨?_, ?_, ?_⟩
    · rw [ht, countVI_append, hg, h1, countVI_of_noVI cid name tl hnvi]
      omega
    · intro m a hm
      rw [ht] at hm
      rcases List.mem_append.mp hm with hmem | hmem
      · exact h2 m a hmem
      · have := hnvi (HookCall.verbInvoked cid m a) hmem cid
        simp [isVerbInvokedOf] at this
    · intro hlt hpass hns
      rw [hg] at hpass hns
      rw [hparts.2.1]
      refine h3 ?_ hpass hns
      rw [hparts.1] at hlt
      exact hlt

/-- An invocation-free run preserves the C7 invariant. -/
theorem fold_C7Inv (cid : Nat) (name : String) :
    ∀ (ops : List Op) (st : RegState),
    (∀ op ∈ ops, isInvokeOp op = false) → C7Inv cid name st →
    C7Inv cid name (ops.foldl step st) := by
  intro ops
  induction ops with
  | nil => intro st _ h; exact h
  | cons op rest ih =>
    intro st hops h
    rw [List.foldl_cons]
    exact ih (step st op)
      (fun o ho => hops o (List.mem_cons_of_mem op ho))
      (step_preserves_C7Inv cid name st op (hops op (List.mem_cons_self _ _)) h)

/-- C7: in a run with no explicit verb invocation, a passive component's
verb callable is invoked exactly once per verb name it registers under,
automatically, at install time, with no arguments, and the component is
left activated; a non-passive component's callable is never invoked. -/
theorem passive_auto_invoked_once (ops : List Op) (cid : Nat) (name : String)
    (hops : ∀ op ∈ ops, isInvokeOp op = false) :
    countVI cid name (run ops).trace =
      (if (getComp (run ops) cid).passive = true
       then (namesOf (getComp (run ops) cid)).count name else 0) ∧
    (∀ m a, HookCall.verbInvoked cid m a ∈ (run ops).trace → a = []) ∧
    (cid < (run ops).comps.length → (getComp (run ops) cid).passive = true →
      namesOf (getComp (run ops) cid) ≠ [] → (run ops).activated cid = true) := by
  have hinit : C7Inv cid name initialState := by
    refine ⟨?_, ?_, ?_⟩
    · simp [countVI, initialState, getComp, getD_past_length,
        default_component_passive]
    · intro m a hm
      simp [initialState] at hm
    · intro hlt
      simp [initialState] at hlt
  exact fold_C7Inv cid name ops initialState hops hinit

/-- Witness for `passive_auto_invoked_once` at a concrete input: a
passive `Notifications` style component installed into a fresh context,
with an `init` firing and no user verb call. -/
theorem passive_auto_invoked_once_inst :
    countVI 0 "notifications"
        (run [Op.install notifComp, Op.fire "init"]).trace =
      (if (getComp (run [Op.install notifComp, Op.fire "init"]) 0).passive = true
       then (namesOf (getComp (run [Op.install notifComp, Op.fire "init"]) 0)).count
         "notifications"
       else 0) :=
  (passive_auto_invoked_once [Op.install notifComp, Op.fire "init"] 0
    "notifications" (by decide)).1

/-- A hook call of a different component is not one of this
component's. -/
theorem isCompHook_ne (cid : Nat) (h : HookCall) (hne : hookCid h ≠ cid) :
    isCompHook cid h = false := by
  cases h with
  | verbInvoked j m a => rfl
  | register j a => simp [isCompHook, hookCid] at hne ⊢; exact hne
  | boot j => simp [isCompHook, hookCid] at hne ⊢; exact hne
  | babelConfig j => simp [isCompHook, hookCid] at hne ⊢; exact hne
  | dependencies j => simp [isCompHook, hookCid] at hne ⊢; exact hne
  | webpackEntry j => simp [isCompHook, hookCid] at hne ⊢; exact hne
  | webpackRules j => simp [isCompHook, hookCid] at hne ⊢; exact hne
  | webpackPlugins j => simp [isCompHook, hookCid] at hne ⊢; exact hne
  | webpackConfig j => simp [isCompHook, hookCid] at hne ⊢; exact hne

/-- The listener of a different component preserves cleanliness. -/
theorem runListener_preserves_clean_other (cid : Nat) (st : RegState)
    (l : Listener) (hcid : listenerCid l ≠ cid) (hcl : cleanFor cid st) :
    cleanFor cid (runListener st l) := by
  rcases runListener_parts st l with ⟨_, hact, _, _⟩
  rcases runListener_trace st l with ⟨tl, ht, htl⟩
  rcases runListener_listeners st l with ⟨ll, hll, hpl⟩
  refine ⟨?_, ?_, ?_⟩
  · rw [hact]
    exact hcl.1
  · intro p hp2
    rw [hll] at hp2
    rcases List.mem_append.mp hp2 with hold | hnew
    · exact hcl.2.1 p hold
    · rw [(hpl p hnew).2.1 cid]
      simp [hcid]
  · intro h hm
    rw [ht] at hm
    rcases List.mem_append.mp hm with hold | hnew
    · exact hcl.2.2 h hold
    · refine isCompHook_ne cid h ?_
      rw [(htl h hnew).1]
      exact hcid

/-- A `gather-dependencies` listener for a clean non-passive component
returns early. -/
theorem runListener_gatherDeps_self (cid : Nat) (st : RegState)
    (ha : st.activated cid = false)
    (hp : (getComp st cid).passive = false) :
    runListener st (Listener.gatherDeps cid) = st := by
  simp [runListener, ha, hp]

/-- An `init` listener for a clean non-passive component returns
early. -/
theorem runListener_onInit_self (cid : Nat) (st : RegState)
    (ha : st.activated cid = false)
    (hp : (getComp st cid).passive = false) :
    runListener st (Listener.onInit cid) = st := by
  simp [runListener, ha, hp]

/-- One listener run preserves cleanliness of a non-passive,
never-activated component, provided no second-order forwarder of that
component is among the handlers (which cleanliness itself
guarantees). -/
theorem runListener_preserves_clean (cid : Nat) (st : RegState)
    (l : Listener) (hl : isFwd cid l = false)
    (hp : (getComp st cid).passive = false) (hcl : cleanFor cid st) :
    cleanFor cid (runListener st l) := by
  by_cases hcid : listenerCid l = cid
  · cases l with
    | gatherDeps j =>
      have hj : j = cid := hcid
      subst hj
      rw [runListener_gatherDeps_self j st hcl.1 hp]
      exact hcl
    | onInit j =>
      have hj : j = cid := hcid
      subst hj
      rw [runListener_onInit_self j st hcl.1 hp]
      exact hcl
    | entryFwd j =>
      have hj : j = cid := hcid
      subst hj
      simp [isFwd] at hl
    | rulesFwd j =>
      have hj : j = cid := hcid
      subst hj
      simp [isFwd] at hl
    | pluginsFwd j =>
      have hj : j = cid := hcid
      subst hj
      simp [isFwd] at hl
    | configFwd j =>
      have hj : j = cid := hcid
      subst hj
      simp [isFwd] at hl
  · exact runListener_preserves_clean_other cid st l hcid hcl

/-- A handler-list fold preserves cleanliness when no handler is a
forwarder of the component. -/
theorem foldListeners_preserves_clean (cid : Nat) :
    ∀ (hs : List Listener) (st : RegState),
    (∀ l ∈ hs, isFwd cid l = false) →
    (getComp st cid).passive = false → cleanFor cid st →
    cleanFor cid (hs.foldl runListener st) := by
  intro hs
  induction hs with
  | nil => intro st _ _ hcl; exact hcl
  | cons l rest ih =>
    intro st hfwd hp hcl
    rw [List.foldl_cons]
    have h1 := runListener_preserves_clean cid st l
      (hfwd l (List.mem_cons_self _ _)) hp hcl
    have hg : getComp (runListener st l) cid = getComp st cid :=
      getComp_congr (runListener_parts st l).1 cid
    exact ih (runListener st l)
      (fun l2 hl2 => hfwd l2 (List.mem_cons_of_mem l hl2))
      (by rw [hg]; exact hp) h1

/-- One operation preserves cleanliness of a non-passive component whose
verb is not invoked by it. -/
theorem step_preserves_clean (cid : Nat) (st : RegState) (op : Op)
    (hp2 : (getComp (step st op) cid).passive = false)
    (hnv : ∀ h ∈ (step st op).trace, isVerbInvokedOf cid h = false)
    (hcl : cleanFor cid st) : cleanFor cid (step st op) := by
  cases op with
  | install c =>
    show cleanFor cid (installComp st c)
    by_cases hc : newCid st = cid
    · have hnew : getComp (installComp st c) cid = c := by
        rw [← hc]
        exact getComp_install_self st c
      have hcp : c.passive = false := by
        have := hp2
        rw [show step st (Op.install c) = installComp st c from rfl, hnew] at this
        exact this
      refine ⟨?_, ?_, ?_⟩
      · rw [installComp_activated_nonpassive st c hcp cid]
        exact hcl.1
      · intro p hpm
        rw [installComp_listeners] at hpm
        rcases List.mem_append.mp hpm with hold | hnew2
        · exact hcl.2.1 p hold
        · simp only [List.mem_cons, List.not_mem_nil, or_false] at hnew2
          rcases hnew2 with rfl | rfl
          · rfl
          · rfl
      · intro h hm
        rw [installComp_trace] at hm
        rcases List.mem_append.mp hm with hold | hnew2
        · exact hcl.2.2 h hold
        · rw [show (namesOf c).flatMap (fun n =>
              if c.passive then
                HookCall.verbInvoked (newCid st) n [] ::
                  (if c.hasRegister then [HookCall.register (newCid st) []] else [])
              else []) = [] from by simp [hcp]] at hnew2
          exact absurd hnew2 (List.not_mem_nil h)
    · refine ⟨?_, ?_, ?_⟩
      · rw [installComp_activated_ne st c cid (fun h => hc h.symm)]
        exact hcl.1
      · intro p hpm
        rw [installComp_listeners] at hpm
        rcases List.mem_append.mp hpm with hold | hnew2
        · exact hcl.2.1 p hold
        · simp only [List.mem_cons, List.not_mem_nil, or_false] at hnew2
          rcases hnew2 with rfl | rfl
          · rfl
          · rfl
      · intro h hm
        rw [installComp_trace] at hm
        rcases List.mem_append.mp hm with hold | hnew2
        · exact hcl.2.2 h hold
        · rcases install_delta_mem (newCid st) c (namesOf c) h hnew2 with
            ⟨n, rfl⟩ | rfl
          · rfl
          · refine isCompHook_ne cid _ ?_
            simp [hookCid]
            exact hc
  | invoke n args =>
    rcases runVerb_cases st n args with h | ⟨cid2, hlk, h⟩
    · show cleanFor cid (runVerb st n args)
      rw [h]
      exact hcl
    · by_cases hc : cid2 = cid
      · subst hc
        have hm : HookCall.verbInvoked cid2 n args ∈
            (step st (Op.invoke n args)).trace := by
          show HookCall.verbInvoked cid2 n args ∈ (runVerb st n args).trace
          rw [h, invokeVerbClosure_trace]
          simp
        have := hnv _ hm
        simp [isVerbInvokedOf] at this
      · show cleanFor cid (runVerb st n args)
        rw [h]
        refine ⟨?_, ?_, ?_⟩
        · have hne : ¬(cid = cid2) := fun h2 => hc h2.symm
          rw [invokeVerbClosure_activated, if_neg hne]
          exact hcl.1
        · intro p hpm
          rw [(invokeVerbClosure_parts st cid2 n args).2.1] at hpm
          exact hcl.2.1 p hpm
        · intro h2 hm
          rw [invokeVerbClosure_trace, List.append_assoc] at hm
          rcases List.mem_append.mp hm with hold | hnew2
          · exact hcl.2.2 h2 hold
          · rcases List.mem_append.mp hnew2 with hv | hr
            · rcases List.mem_singleton.mp hv with rfl
              rfl
            · by_cases hreg : (getComp st cid2).hasRegister = true
              · rw [if_pos hreg] at hr
                rcases List.mem_singleton.mp hr with rfl
                refine isCompHook_ne cid _ ?_
                simp [hookCid]
                exact hc
              · simp [hreg] at hr
  | fire e =>
    show cleanFor cid (fireEvent st e)
    rw [fireEvent_eq]
    have hpst : (getComp st cid).passive = false := by
      have hg : getComp (step st (Op.fire e)) cid = getComp st cid := by
        refine getComp_congr ?_ cid
        show (fireEvent st e).comps = st.comps
        rw [fireEvent_eq]
        exact (foldListeners_parts _ st).1
      rw [hg] at hp2
      exact hp2
    refine foldListeners_preserves_clean cid _ st ?_ hpst hcl
    intro l hl
    rcases fireEvent_snapshot_mem st e l hl with ⟨p, hpmem, hpeq⟩
    rw [← hpeq]
    exact hcl.2.1 p hpmem

/-- A whole run preserves cleanliness: with the component non-passive
and its verb never invoked, it stays clean. -/
theorem fold_preserves_clean (cid : Nat) :
    ∀ (ops : List Op) (st : RegState),
    cleanFor cid st →
    (getComp (ops.foldl step st) cid).passive = false →
    (∀ h ∈ (ops.foldl step st).trace, isVerbInvokedOf cid h = false) →
    cleanFor cid (ops.foldl step st) := by
  intro ops
  induction ops with
  | nil => intro st hcl _ _; exact hcl
  | cons op rest ih =>
    intro st hcl hpass hnv
    rw [List.foldl_cons] at hpass hnv ⊢
    have hp_step : (getComp (step st op) cid).passive = false :=
      passive_false_back rest (step st op) cid hpass
    have hnv_step : ∀ h ∈ (step st op).trace, isVerbInvokedOf cid h = false := by
      intro h hm
      rcases fold_trace_extend rest (step st op) with ⟨tl, htl⟩
      exact hnv h (by rw [htl]; exact List.mem_append_left tl hm)
    exact ih (step st op)
      (step_preserves_clean cid st op hp_step hnv_step hcl) hpass hnv

/-- C2: a non-passive component whose verb callable was never invoked
never has any of its hooks (register, dependencies, boot, babelConfig,
webpackEntry, webpackRules, webpackPlugins, webpackConfig) invoked, no
matter which lifecycle events are fired, how often, or what else is
installed or invoked. -/
theorem inactive_component_hooks_never_fire (ops : List Op) (cid : Nat)
    (hpass : (getComp (run ops) cid).passive = false)
    (hverb : ∀ h ∈ (run ops).trace, isVerbInvokedOf cid h = false) :
    ∀ h ∈ (run ops).trace, isCompHook cid h = false :=
  (fold_preserves_clean cid ops initialState
    ⟨rfl, by intro p hp; simp [initialState] at hp,
      by intro h hm; simp [initialState] at hm⟩
    hpass hverb).2.2

/-- Witness for `inactive_component_hooks_never_fire` at a concrete
input: a never-invoked `Vue` style component alongside a passive
`Notifications` component, with the whole lifecycle fired. -/
theorem inactive_component_hooks_never_fire_inst :
    isCompHook 0 (HookCall.boot 1) = false :=
  inactive_component_hooks_never_fire
    [Op.install vueComp, Op.install notifComp,
      Op.fire "internal:gather-dependencies", Op.fire "init",
      Op.fire "loading-entry", Op.fire "loading-rules",
      Op.fire "loading-plugins", Op.fire "configReady"] 0
    (by decide) (by decide) (HookCall.boot 1) (by decide)

/-- `bootBefore` survives appending a segment without contribution
calls of the component. -/
theorem bootBefore_append_no_contrib (cid : Nat) (t tl : List HookCall)
    (h : bootBefore cid t) (htl : ∀ x ∈ tl, isContrib cid x = false) :
    bootBefore cid (t ++ tl) := by
  intro n hex
  rw [List.take_append_eq_append_take] at hex ⊢
  rcases hex with ⟨x, hx, hcx⟩
  rcases List.mem_append.mp hx with h1 | h1
  · exact List.mem_append_left _ (h n ⟨x, h1, hcx⟩)
  · have hxin : x ∈ tl := List.take_subset _ _ h1
    rw [htl x hxin] at hcx
    exact absurd hcx (by simp)

/-- `bootBefore` survives appending anything once `boot` is already in
the trace. -/
theorem bootBefore_append_boot_mem (cid : Nat) (t tl : List HookCall)
    (h : bootBefore cid t) (hbm : HookCall.boot cid ∈ t) :
    bootBefore cid (t ++ tl) := by
  intro n hex
  by_cases hn : n ≤ t.length
  · have h0 : n - t.length = 0 := Nat.sub_eq_zero_of_le hn
    rw [List.take_append_eq_append_take, h0] at hex ⊢
    simp only [List.take_zero, List.append_nil] at hex ⊢
    exact h n hex
  · have hn2 : t.length ≤ n := Nat.le_of_lt (Nat.lt_of_not_le hn)
    rw [List.take_append_eq_append_take, List.take_of_length_le hn2]
    exact List.mem_append_left _ hbm

/-- `C3Inv` survives a state change that appends contribution-free trace
entries and only non-forwarder (for this component) listeners. -/
theorem C3Inv_extend (cid : Nat) {st st2 : RegState}
    (ll : List (String × Listener))
    (hls : st2.listeners = st.listeners ++ ll)
    (hll : ∀ p ∈ ll, isFwd cid p.2 = false)
    (tl : List HookCall) (ht : st2.trace = st.trace ++ tl)
    (htl : ∀ x ∈ tl, isContrib cid x = false)
    (hinv : C3Inv cid st) : C3Inv cid st2 := by
  constructor
  · intro p hp hf
    rw [hls] at hp
    rcases List.mem_append.mp hp with hold | hnew
    · rw [ht]
      exact List.mem_append_left _ (hinv.1 p hold hf)
    · rw [hll p hnew] at hf
      exact absurd hf (by simp)
  · rw [ht]
    exact bootBefore_append_no_contrib cid st.trace tl hinv.2 htl

/-- A verb invocation appends no contribution call. -/
theorem invoke_delta_no_contrib (cid cid2 : Nat) (n : String)
    (args : List Nat) (st : RegState) :
    ∀ x ∈ [HookCall.verbInvoked cid2 n args] ++
      (if (getComp st cid2).hasRegister then [HookCall.register cid2 args] else []),
      isContrib cid x = false := by
  intro x hx
  rcases List.mem_append.mp hx with h1 | h1
  · rcases List.mem_singleton.mp h1 with rfl
    rfl
  · by_cases hr : (getComp st cid2).hasRegister = true
    · rw [if_pos hr] at h1
      rcases List.mem_singleton.mp h1 with rfl
      rfl
    · simp [hr] at h1

/-- An install appends no contribution call. -/
theorem install_delta_no_contrib (cid cid0 : Nat) (c : Component)
    (ns : List String) :
    ∀ x ∈ ns.flatMap (fun n =>
      if c.passive then
        HookCall.verbInvoked cid0 n [] ::
          (if c.hasRegister then [HookCall.register cid0 []] else [])
      else []), isContrib cid x = false := by
  intro x hx
  rcases install_delta_mem cid0 c ns x hx with ⟨n, rfl⟩ | rfl
  · rfl
  · rfl

/-- One listener run preserves well-formedness when the listener itself
refers to an installed component. -/
theorem runListener_preserves_wf (st : RegState) (l : Listener)
    (hlen : listenerCid l < st.comps.length) (hwf : wfState st) :
    wfState (runListener st l) := by
  rcases runListener_parts st l with ⟨hcomps, _, hverbs, _⟩
  rcases runListener_listeners st l with ⟨ll, hll, hpl⟩
  constructor
  · intro p hp
    rw [hll] at hp
    rw [hcomps]
    rcases List.mem_append.mp hp with hold | hnew
    · exact hwf.1 p hold
    · rw [(hpl p hnew).1]
      exact hlen
  · intro p hp
    rw [hverbs] at hp
    rw [hcomps]
    exact hwf.2 p hp

/-- A handler-list fold preserves well-formedness. -/
theorem foldListeners_preserves_wf :
    ∀ (hs : List Listener) (st : RegState),
    (∀ l ∈ hs, listenerCid l < st.comps.length) → wfState st →
    wfState (hs.foldl runListener st) := by
  intro hs
  induction hs with
  | nil => intro st _ hwf; exact hwf
  | cons l rest ih =>
    intro st hlen hwf
    rw [List.foldl_cons]
    have hc : (runListener st l).comps = st.comps := (runListener_parts st l).1
    refine ih (runListener st l) ?_
      (runListener_preserves_wf st l (hlen l (List.mem_cons_self _ _)) hwf)
    intro l2 hl2
    rw [hc]
    exact hlen l2 (List.mem_cons_of_mem l hl2)

/-- Each operation preserves well-formedness. -/
theorem step_preserves_wf (st : RegState) (op : Op) (hwf : wfState st) :
    wfState (step st op) := by
  cases op with
  | install c =>
    show wfState (installComp st c)
    have hlen : (installComp st c).comps.length = st.comps.length + 1 := by
      rw [installComp_comps]
      simp
    constructor
    · intro p hp
      rw [installComp_listeners] at hp
      rw [hlen]
      rcases List.mem_append.mp hp with hold | hnew
      · exact Nat.lt_succ_of_lt (hwf.1 p hold)
      · simp only [List.mem_cons, List.not_mem_nil, or_false] at hnew
        rcases hnew with rfl | rfl
        · exact Nat.lt_succ_self _
        · exact Nat.lt_succ_self _
    · intro p hp
      rw [hlen]
      rcases installComp_verbs st c p hp with hold | hnew
      · exact Nat.lt_succ_of_lt (hwf.2 p hold)
      · rw [hnew]
        exact Nat.lt_succ_self _
  | invoke n args =>
    rcases runVerb_cases st n args with h | ⟨cid2, _, h⟩
    · show wfState (runVerb st n args)
      rw [h]
      exact hwf
    · show wfState (runVerb st n args)
      rw [h]
      rcases invokeVerbClosure_parts st cid2 n args with ⟨hc, hl, hv, _⟩
      constructor
      · intro p hp
        rw [hl] at hp
        rw [hc]
        exact hwf.1 p hp
      · intro p hp
        rw [hv] at hp
        rw [hc]
        exact hwf.2 p hp
  | fire e =>
    show wfState (fireEvent st e)
    rw [fireEvent_eq]
    refine foldListeners_preserves_wf _ st ?_ hwf
    intro l hl
    rcases fireEvent_snapshot_mem st e l hl with ⟨p, hpmem, hpeq⟩
    rw [← hpeq]
    exact hwf.1 p hpmem

/-- Firing an `init` listener for an activated-or-passive component with
a boot hook puts the boot call into the trace. -/
theorem runListener_onInit_boot_mem (st : RegState) (cid : Nat)
    (h1 : ¬((!st.activated cid && !(getComp st cid).passive) = true))
    (hb : (getComp st cid).hasBoot = true) :
    HookCall.boot cid ∈ (runListener st (Listener.onInit cid)).trace := by
  by_cases hc : (getComp st cid).hasBabelConfig = true <;>
    simp [runListener, h1, hb, hc]

/-- One listener run preserves the C3 invariant. -/
theorem runListener_preserves_c3 (cid : Nat) (st : RegState) (l : Listener)
    (hlen : listenerCid l < st.comps.length)
    (hfwdboot : isFwd cid l = true → HookCall.boot cid ∈ st.trace)
    (hb : cid < st.comps.length → (getComp st cid).hasBoot = true)
    (hinv : C3Inv cid st) : C3Inv cid (runListener st l) := by
  rcases runListener_trace st l with ⟨tl, ht, htl⟩
  rcases runListener_listeners st l with ⟨ll, hll, hpl⟩
  by_cases hfwd : isFwd cid l = true
  · have hbm : HookCall.boot cid ∈ st.trace := hfwdboot hfwd
    constructor
    · intro p hp _
      rw [ht]
      exact List.mem_append_left _ hbm
    · rw [ht]
      exact bootBefore_append_boot_mem cid st.trace tl hinv.2 hbm
  · by_cases hself : l = Listener.onInit cid
    · subst hself
      by_cases h1 : (!st.activated cid && !(getComp st cid).passive) = true
      · have heq : runListener st (Listener.onInit cid) = st := by
          simp [runListener, h1]
        rw [heq]
        exact hinv
      · have hbm : HookCall.boot cid ∈
            (runListener st (Listener.onInit cid)).trace :=
          runListener_onInit_boot_mem st cid h1 (hb hlen)
        constructor
        · intro p _ _
          exact hbm
        · rw [ht]
          refine bootBefore_append_no_contrib cid st.trace tl hinv.2 ?_
          intro x hx
          by_cases hcx : isContrib cid x = true
          · rw [(htl x hx).2.2 cid hcx] at hfwd
            exact absurd rfl hfwd
          · exact Bool.not_eq_true _ ▸ Bool.of_not_eq_true hcx
    · refine C3Inv_extend cid ll hll ?_ tl ht ?_ hinv
      · intro p hp
        rw [(hpl p hp).2.1 cid]
        have hne : listenerCid l ≠ cid := fun he =>
          hself (by rw [(hpl p hp).2.2, he])
        simp [hne]
      · intro x hx
        by_cases hcx : isContrib cid x = true
        · rw [(htl x hx).2.2 cid hcx] at hfwd
          exact absurd rfl hfwd
        · exact Bool.not_eq_true _ ▸ Bool.of_not_eq_true hcx

/-- A handler-list fold preserves the C3 invariant. -/
theorem foldListeners_preserves_c3 (cid : Nat) :
    ∀ (hs : List Listener) (st : RegState),
    (∀ l ∈ hs, listenerCid l < st.comps.length) →
    (∀ l ∈ hs, isFwd cid l = true → HookCall.boot cid ∈ st.trace) →
    (cid < st.comps.length → (getComp st cid).hasBoot = true) →
    C3Inv cid st → C3Inv cid (hs.foldl runListener st) := by
  intro hs
  induction hs with
  | nil => intro st _ _ _ hinv; exact hinv
  | cons l rest ih =>
    intro st hlen hfb hb hinv
    rw [List.foldl_cons]
    have hc : (runListener st l).comps = st.comps := (runListener_parts st l).1
    rcases runListener_trace st l with ⟨tl, ht, _⟩
    refine ih (runListener st l) ?_ ?_ ?_
      (runListener_preserves_c3 cid st l (hlen l (List.mem_cons_self _ _))
        (hfb l (List.mem_cons_self _ _)) hb hinv)
    · intro l2 hl2
      rw [hc]
      exact hlen l2 (List.mem_cons_of_mem l hl2)
    · intro l2 hl2 hf2
      rw [ht]
      exact List.mem_append_left _ (hfb l2 (List.mem_cons_of_mem l hl2) hf2)
    · intro hlt
      rw [getComp_congr hc cid]
      rw [hc] at hlt
      exact hb hlt

/-- Each operation preserves the C3 invariant. -/
theorem step_preserves_c3 (cid : Nat) (st : RegState) (op : Op)
    (hwf : wfState st)
    (hb : cid < st.comps.length → (getComp st cid).hasBoot = true)
    (hinv : C3Inv cid st) : C3Inv cid (step st op) := by
  cases op with
  | install c =>
    show C3Inv cid (installComp st c)
    refine C3Inv_extend cid
      [("internal:gather-dependencies", Listener.gatherDeps (newCid st)),
       ("init", Listener.onInit (newCid st))]
      (installComp_listeners st c) ?_ _ (installComp_trace st c)
      (install_delta_no_contrib cid (newCid st) c (namesOf c)) hinv
    intro p hp
    simp only [List.mem_cons, List.not_mem_nil, or_false] at hp
    rcases hp with rfl | rfl
    · rfl
    · rfl
  | invoke n args =>
    rcases runVerb_cases st n args with h | ⟨cid2, _, h⟩
    · show C3Inv cid (runVerb st n args)
      rw [h]
      exact hinv
    · show C3Inv cid (runVerb st n args)
      rw [h]
      refine C3Inv_extend cid [] ?_ ?_ _ ?_
        (invoke_delta_no_contrib cid cid2 n args st) hinv
      · rw [(invokeVerbClosure_parts st cid2 n args).2.1]
        simp
      · intro p hp
        simp at hp
      · rw [invokeVerbClosure_trace, List.append_assoc]
  | fire e =>
    show C3Inv cid (fireEvent st e)
    rw [fireEvent_eq]
    refine foldListeners_preserves_c3 cid _ st ?_ ?_ hb hinv
    · intro l hl
      rcases fireEvent_snapshot_mem st e l hl with ⟨p, hpmem, hpeq⟩
      rw [← hpeq]
      exact hwf.1 p hpmem
    · intro l hl hf
      rcases fireEvent_snapshot_mem st e l hl with ⟨p, hpmem, hpeq⟩
      refine hinv.1 p hpmem ?_
      rw [hpeq]
      exact hf

/-- A whole run preserves the C3 invariant, given the component carries
a boot hook. -/
theorem fold_preserves_c3 (cid : Nat) :
    ∀ (ops : List Op) (st : RegState),
    wfState st → C3Inv cid st →
    (getComp (ops.foldl step st) cid).hasBoot = true →
    C3Inv cid (ops.foldl step st) := by
  intro ops
  induction ops with
  | nil => intro st _ hinv _; exact hinv
  | cons op rest ih =>
    intro st hwf hinv hbfin
    rw [List.foldl_cons] at hbfin ⊢
    have hb : cid < st.comps.length → (getComp st cid).hasBoot = true := by
      intro hlt
      exact hasBoot_back (op :: rest) st cid hlt (by rw [List.foldl_cons]; exact hbfin)
    exact ih (step st op) (step_preserves_wf st op hwf)
      (step_preserves_c3 cid st op hwf hb hinv) hbfin

/-- C3: for every installed component carrying a `boot` hook, its
contribution hooks (`webpackEntry`, `webpackRules`, `webpackPlugins`,
`webpackConfig`) are never invoked before its `boot` hook has been
invoked: every prefix of the run's trace containing one of the
component's contribution calls already contains its `boot` call. -/
theorem contribution_hooks_after_boot (ops : List Op) (cid : Nat)
    (hb : (getComp (run ops) cid).hasBoot = true) :
    bootBefore cid (run ops).trace := by
  have hwf0 : wfState initialState := by
    constructor
    · intro p hp
      simp [initialState] at hp
    · intro p hp
      simp [initialState] at hp
  have hinv0 : C3Inv cid initialState := by
    constructor
    · intro p hp
      simp [initialState] at hp
    · intro n hex
      rcases hex with ⟨x, hx, _⟩
      simp [initialState] at hx
  exact (fold_preserves_c3 cid ops initialState hwf0 hinv0 hb).2

/-- Witness for `contribution_hooks_after_boot` at a concrete input: an
activated `Vue` style component through a full lifecycle. -/
theorem contribution_hooks_after_boot_inst :
    bootBefore 0 (run [Op.install vueComp, Op.invoke "vue" [],
      Op.fire "init", Op.fire "loading-entry", Op.fire "configReady"]).trace :=
  contribution_hooks_after_boot
    [Op.install vueComp, Op.invoke "vue" [],
      Op.fire "init", Op.fire "loading-entry", Op.fire "configReady"] 0
    (by decide)

/-- C9: invoking the grouping verb's `register(name, callback)` without
a callback throws synchronously and immediately; the parent context (its
child list in particular) and the current-context stack are unchanged,
and no child context is created. -/
theorem groupRegister_requires_callback (parent : MixCtx)
    (st : CurrentStack) (name : String) (env : Option String) :
    groupRegister parent st name none env =
      (some "A callback must be passed to mix.group()", parent, st) ∧
    ((groupRegister parent st name none env).2.1).children = parent.children :=
  ⟨rfl, rfl⟩

end LaravelMix
